import Mathlib

/-!
# najeira/config: a line-oriented `name=value` store and its reflective binder

A shallow embedding of `config.go`.

* Go strings are modelled as lists of Unicode code points (`Str`); the source
  texts are taken to be valid UTF-8, where the byte `'\n'`, the byte `'='` and
  the byte `','` occur only as the characters of the same name.
* A Go `map[string]string` is `Option (Str → Option Str)`: `none` is the nil
  map, `some m` an allocated map with `m k = none` for an absent key.
* A computation that can panic returns an `Option` (`none` is the panic); a
  loop over an arbitrary reader is run with fuel.
* The width of `int`, `uint` and `uintptr` is the parameter `intSize`.
* A record is the list of its fields. A field is exported when its name starts
  with an upper-case letter; the setters of package `reflect` panic on a field
  that is not exported, and on a value that is not addressable.
* Functions of the Go standard library (`strings`, `strconv`, `bytes`,
  `reflect`) are modelled on their documented behaviour.
-/

namespace GoConfig

/-- A Go string, as its sequence of code points. -/
abbrev Str := List Char

/-- A Go `bool`. -/
abbrev GoBool := Bool

/-! ## Package `strings` -/

/-- Go `unicode.IsSpace`: the Latin-1 spaces and the characters with the
Unicode White_Space property. -/
def IsSpace (c : Char) : Bool :=
  c.toNat = 0x09 || c.toNat = 0x0A || c.toNat = 0x0B || c.toNat = 0x0C || c.toNat = 0x0D
    || c.toNat = 0x20 || c.toNat = 0x85 || c.toNat = 0xA0 || c.toNat = 0x1680
    || (0x2000 ≤ c.toNat && c.toNat ≤ 0x200A)
    || c.toNat = 0x2028 || c.toNat = 0x2029 || c.toNat = 0x202F || c.toNat = 0x205F
    || c.toNat = 0x3000

/-- Go `strings.TrimSpace`: leading, then trailing white space removed. -/
def TrimSpace (s : Str) : Str :=
  (s.dropWhile IsSpace).rdropWhile IsSpace

/-- Go `strings.HasPrefix`. -/
def HasPrefix (s pre : Str) : Bool :=
  pre.isPrefixOf s

/-- Scan for the first position at which `sep` is a prefix; `i` counts the
characters already passed. -/
def indexFrom (sep : Str) : Str → Nat → Int
  | [], i => if sep = [] then (i : Int) else -1
  | c :: t, i => if sep.isPrefixOf (c :: t) then (i : Int) else indexFrom sep t (i + 1)

/-- Go `strings.Index`: position of the first instance of `sep`, or `-1`. -/
def Index (s sep : Str) : Int :=
  indexFrom sep s 0

/-- The loop of Go `strings.genSplit` for a non-empty separator: at most
`splits` cuts, each at the first remaining instance of `sep`. -/
def genSplit (sep : Str) : Nat → Str → List Str
  | 0, s => [s]
  | splits + 1, s =>
    let m := Index s sep
    if m < 0 then [s]
    else s.take m.toNat :: genSplit sep splits (s.drop (m.toNat + sep.length))

/-- Go `strings.SplitN`: at most `n` substrings for `n > 0`, none for `n = 0`,
all of them for `n < 0`; an empty separator explodes the string. -/
def SplitN (s sep : Str) (n : Int) : List Str :=
  if n = 0 then []
  else if sep = [] then
    (if n < 0 ∨ (s.length : Int) ≤ n then s.map (fun c => [c])
     else (s.take (n.toNat - 1)).map (fun c => [c]) ++ [s.drop (n.toNat - 1)])
  else if n < 0 then genSplit sep s.length s
  else genSplit sep (n.toNat - 1) s

/-- Go `strings.Split`. -/
def Split (s sep : Str) : List Str :=
  SplitN s sep (-1)

/-! ## Errors -/

/-- The `Err` field of a `*strconv.NumError`. -/
inductive NumErr where
  | ErrSyntax
  | ErrRange
  deriving DecidableEq, Repr

/-- Go `error` values that the package produces or passes on. -/
inductive Error where
  /-- Package variable `ErrNotFound`. -/
  | ErrNotFound
  /-- Package variable `ErrUnsupportedType`. -/
  | ErrUnsupportedType
  /-- The end-of-input error `io.EOF`. -/
  | EOF
  /-- A `*strconv.NumError` with its `Func`, `Num` and `Err` fields. -/
  | NumError (Func Num : Str) (Err : NumErr)
  /-- Any other error value, such as an I/O failure of a reader. -/
  | Other (msg : Str)
  deriving DecidableEq, Repr

/-! ## The store -/

/-- The constant `Separator`. -/
def Separator : Str := ['=']

/-- A Go `map[string]string`; `none` is the nil map. -/
abbrev GoMap := Option (Str → Option Str)

/-- Reading `m[k]` with the comma-ok form; a nil map has no keys. -/
def GoMap.get (m : GoMap) (k : Str) : Option Str :=
  match m with
  | none => none
  | some f => f k

/-- The assignment `m[k] = v`; it panics on the nil map. -/
def GoMap.set (m : GoMap) (k v : Str) : Option GoMap :=
  match m with
  | none => none
  | some f => some (some (fun x => if x = k then some v else f x))

/-- The struct `Config`. -/
structure Config where
  Values : GoMap
  Defaults : GoMap

/-- The method `setLine`; `none` is the panic of an assignment to an entry of
a nil `Values`. -/
def Config.setLine (c : Config) (line : Str) : Option Config :=
  let trim := TrimSpace line
  if trim = [] then some c
  else if HasPrefix trim ['#'] then some c
  else if Index trim Separator ≤ 0 then some c
  else
    let pair := SplitN trim Separator 2
    if pair.length ≠ 2 then some c
    else
      let name := TrimSpace (pair.getD 0 [])
      let value := TrimSpace (pair.getD 1 [])
      match c.Values.set name value with
      | none => none
      | some m => some { c with Values := m }

/-- The method `SetDefault`. -/
def Config.SetDefault (c : Config) (name value : Str) : Config :=
  let d : Str → Option Str :=
    match c.Defaults with
    | none => fun _ => none
    | some f => f
  let n := TrimSpace name
  let v := TrimSpace value
  { c with Defaults := some (fun x => if x = n then some v else d x) }

/-- The method `String`: the value and the error it returns. -/
def Config.String (c : Config) (name : Str) : Str × Option Error :=
  match c.Values.get name with
  | some v => (v, none)
  | none =>
    match c.Defaults.get name with
    | some v => (v, none)
    | none => ([], some Error.ErrNotFound)

/-! ## Readers -/

/-- How a call ends: it returns, it panics, or the fuel given to a loop over
a reader ran out before the reader reported an error. -/
inductive Outcome (α : Type) where
  | ret (a : α)
  | panic
  | outOfFuel

/-- The interface `Reader`: its method `ReadString` over a reader state `σ`,
returning the text read, the error, and the next state. -/
abbrev ReadStringFn (σ : Type) := σ → Char → (Str × Option Error) × σ

/-- The method `ReadString` of a `*bytes.Buffer` whose unread part is `buf`: the text up
to and including the first `delim`, or all that is left together with
`io.EOF`. -/
def bufferReadString : ReadStringFn Str := fun buf delim =>
  let i := buf.indexOf delim
  if i < buf.length then ((buf.take (i + 1), none), buf.drop (i + 1))
  else ((buf, some Error.EOF), [])

/-- The `for` loop of `LoadReader`, run for at most `fuel` reads. -/
def Config.readLoop {σ : Type} (rs : ReadStringFn σ) :
    Nat → Config → σ → Outcome (Config × σ × Option Error)
  | 0, _, _ => Outcome.outOfFuel
  | fuel + 1, c, r =>
    match rs r '\n' with
    | ((line, some err), r1) =>
      if err = Error.EOF then
        match c.setLine line with
        | none => Outcome.panic
        | some c1 => Outcome.ret (c1, r1, none)
      else Outcome.ret (c, r1, some err)
    | ((line, none), r1) =>
      match c.setLine line with
      | none => Outcome.panic
      | some c1 => Config.readLoop rs fuel c1 r1

/-- The method `LoadReader`: allocate `Values` when nil, then loop. -/
def Config.LoadReader {σ : Type} (rs : ReadStringFn σ) (fuel : Nat) (c : Config) (r : σ) :
    Outcome (Config × σ × Option Error) :=
  let c0 : Config :=
    match c.Values with
    | none => { c with Values := some (fun _ => none) }
    | some _ => c
  Config.readLoop rs fuel c0 r

/-- The method `LoadString`: `LoadReader` over a buffer holding `str`. A buffer of
`n` characters reaches end of input within `n + 1` reads. -/
def Config.LoadString (c : Config) (str : Str) : Outcome (Config × Option Error) :=
  match Config.LoadReader bufferReadString (str.length + 1) c str with
  | Outcome.ret (c1, _, err) => Outcome.ret (c1, err)
  | Outcome.panic => Outcome.panic
  | Outcome.outOfFuel => Outcome.outOfFuel

/-! ## Package `strconv` -/

/-- An ASCII decimal digit. -/
def isDigit (ch : Char) : Bool :=
  48 ≤ ch.toNat && ch.toNat ≤ 57

/-- The number a string of decimal digits denotes, most significant first. -/
def digitsValue (ds : Str) : Nat :=
  ds.foldl (fun n ch => n * 10 + (ch.toNat - 48)) 0

/-- The largest `uint64`. -/
def maxUint64 : Nat := 18446744073709551615

/-- The digit loop of Go `strconv.ParseUint` in base 10, from left to right, `n`
being the number read so far: a character that is no digit is a syntax error;
a number that leaves `uint64` or exceeds `maxVal` is a range error, reported
with `maxVal`, before any later character is looked at. -/
def parseUintDigits (maxVal : Nat) : Str → Nat → Nat × Option NumErr
  | [], n => (n, none)
  | ch :: rest, n =>
    if isDigit ch = false then (0, some NumErr.ErrSyntax)
    else if maxUint64 / 10 + 1 ≤ n then (maxVal, some NumErr.ErrRange)
    else if maxUint64 < n * 10 + (ch.toNat - 48) ∨ maxVal < n * 10 + (ch.toNat - 48) then
      (maxVal, some NumErr.ErrRange)
    else parseUintDigits maxVal rest (n * 10 + (ch.toNat - 48))

/-- Go `strconv.ParseUint(s, 10, bitSize)`. -/
def ParseUint (bitSize : Nat) (s : Str) : Nat × Option NumErr :=
  if s = [] then (0, some NumErr.ErrSyntax)
  else parseUintDigits (2 ^ bitSize - 1) s 0

/-- Go `strconv.ParseInt(s, 10, bitSize)`: the sign is picked off, the rest goes
to `ParseUint`; a syntax error is returned at once, a range error or a number
beyond the signed range gives the nearest bound with a range error. -/
def ParseInt (bitSize : Nat) (s : Str) : ℤ × Option NumErr :=
  if s = [] then (0, some NumErr.ErrSyntax)
  else
    let neg : Bool := s.head? = some '-'
    let ds : Str := if s.head? = some '+' ∨ s.head? = some '-' then s.tail else s
    match ParseUint bitSize ds with
    | (_, some NumErr.ErrSyntax) => (0, some NumErr.ErrSyntax)
    | (un, _) =>
      let cutoff : Nat := 2 ^ (bitSize - 1)
      if neg = false ∧ cutoff ≤ un then ((cutoff : ℤ) - 1, some NumErr.ErrRange)
      else if neg = true ∧ cutoff < un then (-(cutoff : ℤ), some NumErr.ErrRange)
      else ((if neg then -(un : ℤ) else (un : ℤ)), none)

/-- Go `strconv.Atoi` for an `int` of `intSize` bits: `ParseInt(s, 10, 0)` with the
error's `Func` set to `Atoi`; its fast path for short texts returns the same. -/
def Atoi (intSize : Nat) (s : Str) : ℤ × Option Error :=
  match ParseInt intSize s with
  | (i, some kind) => (i, some (Error.NumError "Atoi".toList s kind))
  | (i, none) => (i, none)

/-- The method `Int`, for an `int` of `intSize` bits. -/
def Config.Int (intSize : Nat) (c : Config) (name : Str) : ℤ × Option Error :=
  match c.String name with
  | (_, some err) => (0, some err)
  | (v, none) =>
    match Atoi intSize v with
    | (_, some err) => (0, some err)
    | (i, none) => (i, none)

/-- Go `strconv.ParseBool`: it accepts `1`, `t`, `T`, `TRUE`, `true`, `True`, `0`, `f`,
`F`, `FALSE`, `false`, `False`, and nothing else. -/
def ParseBool (str : Str) : GoBool × Option Error :=
  if str = "1".toList ∨ str = "t".toList ∨ str = "T".toList ∨ str = "true".toList
      ∨ str = "TRUE".toList ∨ str = "True".toList then (true, none)
  else if str = "0".toList ∨ str = "f".toList ∨ str = "F".toList ∨ str = "false".toList
      ∨ str = "FALSE".toList ∨ str = "False".toList then (false, none)
  else (false, some (Error.NumError "ParseBool".toList str NumErr.ErrSyntax))

/-- The method `Bool`. -/
def Config.Bool (c : Config) (name : Str) : GoBool × Option Error :=
  match c.String name with
  | (_, some err) => (false, some err)
  | (v, none) =>
    match ParseBool v with
    | (_, some err) => (false, some err)
    | (i, none) => (i, none)

/-! ## Package `reflect` -/

/-- Go `reflect.Kind`. -/
inductive Kind where
  | Invalid | Bool
  | Int | Int8 | Int16 | Int32 | Int64
  | Uint | Uint8 | Uint16 | Uint32 | Uint64 | Uintptr
  | Float32 | Float64 | Complex64 | Complex128
  | Array | Chan | Func | Interface | Map | Ptr | Slice | String | Struct | UnsafePointer
  deriving DecidableEq, Repr

/-- The signed integer kinds. -/
inductive IntKind where
  | Int | Int8 | Int16 | Int32 | Int64
  deriving DecidableEq, Repr

/-- The unsigned integer kinds. -/
inductive UintKind where
  | Uint | Uint8 | Uint16 | Uint32 | Uint64 | Uintptr
  deriving DecidableEq, Repr

/-- The kinds whose values the binder never looks into. -/
inductive OtherKind where
  | Float32 | Float64 | Complex64 | Complex128
  | Array | Chan | Func | Map | Slice | UnsafePointer
  deriving DecidableEq, Repr

/-- Width in bits of a signed kind; `int` has `intSize` bits. -/
def IntKind.bits (intSize : Nat) : IntKind → Nat
  | IntKind.Int => intSize
  | IntKind.Int8 => 8
  | IntKind.Int16 => 16
  | IntKind.Int32 => 32
  | IntKind.Int64 => 64

/-- Width in bits of an unsigned kind; `uint` and `uintptr` have `intSize`
bits. -/
def UintKind.bits (intSize : Nat) : UintKind → Nat
  | UintKind.Uint => intSize
  | UintKind.Uint8 => 8
  | UintKind.Uint16 => 16
  | UintKind.Uint32 => 32
  | UintKind.Uint64 => 64
  | UintKind.Uintptr => intSize

/-- The kind of a signed kind. -/
def IntKind.toKind : IntKind → Kind
  | IntKind.Int => Kind.Int
  | IntKind.Int8 => Kind.Int8
  | IntKind.Int16 => Kind.Int16
  | IntKind.Int32 => Kind.Int32
  | IntKind.Int64 => Kind.Int64

/-- The kind of an unsigned kind. -/
def UintKind.toKind : UintKind → Kind
  | UintKind.Uint => Kind.Uint
  | UintKind.Uint8 => Kind.Uint8
  | UintKind.Uint16 => Kind.Uint16
  | UintKind.Uint32 => Kind.Uint32
  | UintKind.Uint64 => Kind.Uint64
  | UintKind.Uintptr => Kind.Uintptr

/-- The kind of a kind without a binding rule. -/
def OtherKind.toKind : OtherKind → Kind
  | OtherKind.Float32 => Kind.Float32
  | OtherKind.Float64 => Kind.Float64
  | OtherKind.Complex64 => Kind.Complex64
  | OtherKind.Complex128 => Kind.Complex128
  | OtherKind.Array => Kind.Array
  | OtherKind.Chan => Kind.Chan
  | OtherKind.Func => Kind.Func
  | OtherKind.Map => Kind.Map
  | OtherKind.Slice => Kind.Slice
  | OtherKind.UnsafePointer => Kind.UnsafePointer

/-- Go `reflect.StructField`, as far as `fieldName` reads it; the tag is kept
as its key/value pairs. -/
structure StructField where
  Name : Str
  Tag : List (Str × Str)
  Anonymous : Bool
  deriving DecidableEq, Repr

/-- The table `unicode.Upper` (category Lu, Unicode 14) beyond Latin-1, as ranges
`(Lo, Hi, Stride)`. -/
def upperRanges : List (Nat × Nat × Nat) :=
  [(0x100, 0x136, 2), (0x139, 0x147, 2), (0x14A, 0x178, 2), (0x179, 0x17D, 2), (0x181, 0x182, 1),
   (0x184, 0x184, 1), (0x186, 0x187, 1), (0x189, 0x18B, 1), (0x18E, 0x191, 1), (0x193, 0x194, 1),
   (0x196, 0x198, 1), (0x19C, 0x19D, 1), (0x19F, 0x1A0, 1), (0x1A2, 0x1A6, 2), (0x1A7, 0x1A7, 1),
   (0x1A9, 0x1A9, 1), (0x1AC, 0x1AC, 1), (0x1AE, 0x1AF, 1), (0x1B1, 0x1B3, 1), (0x1B5, 0x1B5, 1),
   (0x1B7, 0x1B8, 1), (0x1BC, 0x1BC, 1), (0x1C4, 0x1CD, 3), (0x1CF, 0x1DB, 2), (0x1DE, 0x1EE, 2),
   (0x1F1, 0x1F1, 1), (0x1F4, 0x1F4, 1), (0x1F6, 0x1F8, 1), (0x1FA, 0x232, 2), (0x23A, 0x23B, 1),
   (0x23D, 0x23E, 1), (0x241, 0x241, 1), (0x243, 0x246, 1), (0x248, 0x24E, 2), (0x370, 0x370, 1),
   (0x372, 0x372, 1), (0x376, 0x376, 1), (0x37F, 0x37F, 1), (0x386, 0x386, 1), (0x388, 0x38A, 1),
   (0x38C, 0x38C, 1), (0x38E, 0x38F, 1), (0x391, 0x3A1, 1), (0x3A3, 0x3AB, 1), (0x3CF, 0x3CF, 1),
   (0x3D2, 0x3D4, 1), (0x3D8, 0x3EE, 2), (0x3F4, 0x3F4, 1), (0x3F7, 0x3F7, 1), (0x3F9, 0x3FA, 1),
   (0x3FD, 0x42F, 1), (0x460, 0x480, 2), (0x48A, 0x4C0, 2), (0x4C1, 0x4CD, 2), (0x4D0, 0x52E, 2),
   (0x531, 0x556, 1), (0x10A0, 0x10C5, 1), (0x10C7, 0x10C7, 1), (0x10CD, 0x10CD, 1),
   (0x13A0, 0x13F5, 1), (0x1C90, 0x1CBA, 1), (0x1CBD, 0x1CBF, 1), (0x1E00, 0x1E94, 2),
   (0x1E9E, 0x1EFE, 2), (0x1F08, 0x1F0F, 1), (0x1F18, 0x1F1D, 1), (0x1F28, 0x1F2F, 1),
   (0x1F38, 0x1F3F, 1), (0x1F48, 0x1F4D, 1), (0x1F59, 0x1F5F, 2), (0x1F68, 0x1F6F, 1),
   (0x1FB8, 0x1FBB, 1), (0x1FC8, 0x1FCB, 1), (0x1FD8, 0x1FDB, 1), (0x1FE8, 0x1FEC, 1),
   (0x1FF8, 0x1FFB, 1), (0x2102, 0x2102, 1), (0x2107, 0x2107, 1), (0x210B, 0x210D, 1),
   (0x2110, 0x2112, 1), (0x2115, 0x2115, 1), (0x2119, 0x211D, 1), (0x2124, 0x212A, 2),
   (0x212B, 0x212D, 1), (0x2130, 0x2133, 1), (0x213E, 0x213F, 1), (0x2145, 0x2145, 1),
   (0x2183, 0x2183, 1), (0x2C00, 0x2C2F, 1), (0x2C60, 0x2C60, 1), (0x2C62, 0x2C64, 1),
   (0x2C67, 0x2C6D, 2), (0x2C6E, 0x2C70, 1), (0x2C72, 0x2C72, 1), (0x2C75, 0x2C75, 1),
   (0x2C7E, 0x2C80, 1), (0x2C82, 0x2CE2, 2), (0x2CEB, 0x2CEB, 1), (0x2CED, 0x2CED, 1),
   (0x2CF2, 0x2CF2, 1), (0xA640, 0xA66C, 2), (0xA680, 0xA69A, 2), (0xA722, 0xA72E, 2),
   (0xA732, 0xA76E, 2), (0xA779, 0xA77D, 2), (0xA77E, 0xA786, 2), (0xA78B, 0xA78B, 1),
   (0xA78D, 0xA78D, 1), (0xA790, 0xA790, 1), (0xA792, 0xA792, 1), (0xA796, 0xA7AA, 2),
   (0xA7AB, 0xA7AE, 1), (0xA7B0, 0xA7B4, 1), (0xA7B6, 0xA7C4, 2), (0xA7C5, 0xA7C7, 1),
   (0xA7C9, 0xA7C9, 1), (0xA7D0, 0xA7D0, 1), (0xA7D6, 0xA7D6, 1), (0xA7D8, 0xA7D8, 1),
   (0xA7F5, 0xA7F5, 1), (0xFF21, 0xFF3A, 1), (0x10400, 0x10427, 1), (0x104B0, 0x104D3, 1),
   (0x10570, 0x1057A, 1), (0x1057C, 0x1058A, 1), (0x1058C, 0x10592, 1), (0x10594, 0x10595, 1),
   (0x10C80, 0x10CB2, 1), (0x118A0, 0x118BF, 1), (0x16E40, 0x16E5F, 1), (0x1D400, 0x1D419, 1),
   (0x1D434, 0x1D44D, 1), (0x1D468, 0x1D481, 1), (0x1D49C, 0x1D49C, 1), (0x1D49E, 0x1D49F, 1),
   (0x1D4A2, 0x1D4A2, 1), (0x1D4A5, 0x1D4A6, 1), (0x1D4A9, 0x1D4AC, 1), (0x1D4AE, 0x1D4B5, 1),
   (0x1D4D0, 0x1D4E9, 1), (0x1D504, 0x1D505, 1), (0x1D507, 0x1D50A, 1), (0x1D50D, 0x1D514, 1),
   (0x1D516, 0x1D51C, 1), (0x1D538, 0x1D539, 1), (0x1D53B, 0x1D53E, 1), (0x1D540, 0x1D544, 1),
   (0x1D546, 0x1D546, 1), (0x1D54A, 0x1D550, 1), (0x1D56C, 0x1D585, 1), (0x1D5A0, 0x1D5B9, 1),
   (0x1D5D4, 0x1D5ED, 1), (0x1D608, 0x1D621, 1), (0x1D63C, 0x1D655, 1), (0x1D670, 0x1D689, 1),
   (0x1D6A8, 0x1D6C0, 1), (0x1D6E2, 0x1D6FA, 1), (0x1D71C, 0x1D734, 1), (0x1D756, 0x1D76E, 1),
   (0x1D790, 0x1D7A8, 1), (0x1D7CA, 0x1D7CA, 1), (0x1E900, 0x1E921, 1)]

/-- Go `unicode.IsUpper`: the upper-case letters of Latin-1, and the table beyond. -/
def IsUpper (ch : Char) : Bool :=
  if ch.toNat ≤ 0xFF then
    (0x41 ≤ ch.toNat && ch.toNat ≤ 0x5A) || (0xC0 ≤ ch.toNat && ch.toNat ≤ 0xD6)
      || (0xD8 ≤ ch.toNat && ch.toNat ≤ 0xDE)
  else
    upperRanges.any fun r =>
      r.1 ≤ ch.toNat && ch.toNat ≤ r.2.1 && (ch.toNat - r.1) % r.2.2 == 0

/-- Go `reflect.StructField.IsExported`: the name of the field starts with an upper-case
letter. -/
def StructField.IsExported (f : StructField) : Bool :=
  match f.Name with
  | [] => false
  | ch :: _ => IsUpper ch

/-- Go `reflect.StructTag.Get`: the value of `key`, or the empty string. -/
def StructField.tagGet (f : StructField) (key : Str) : Str :=
  match f.Tag.lookup key with
  | some v => v
  | none => []

/-- A Go value as package `reflect` sees it. -/
inductive Value where
  | bool (b : Bool)
  | int (k : IntKind) (i : ℤ)
  | uint (k : UintKind) (n : Nat)
  | string (s : Str)
  | struct (fields : List (StructField × Value))
  | ptr (elem : Option Value)
  | iface (elem : Option Value)
  | other (k : OtherKind)

/-- Go `reflect.Value.Kind`. -/
def Value.Kind : Value → Kind
  | Value.bool _ => Kind.Bool
  | Value.int k _ => k.toKind
  | Value.uint k _ => k.toKind
  | Value.string _ => Kind.String
  | Value.struct _ => Kind.Struct
  | Value.ptr _ => Kind.Ptr
  | Value.iface _ => Kind.Interface
  | Value.other k => k.toKind

/-- Conversion to a signed integer of `w` bits (two's complement). -/
def wrapSigned (w : Nat) (x : ℤ) : ℤ :=
  (x + 2 ^ (w - 1)) % 2 ^ w - 2 ^ (w - 1)

/-- Conversion to an unsigned integer of `w` bits. -/
def wrapUnsigned (w : Nat) (x : ℤ) : Nat :=
  (x % 2 ^ w).toNat

/-- Go `reflect.Value.SetInt` with an `int64` argument: the value is
converted to the kind of the field. It panics when the field is not assignable
(`canSet` is false: the field was reached through a field that is not exported,
or is not addressable), and on any other kind. -/
def Value.SetInt (intSize : Nat) (canSet : Bool) (f : Value) (x : ℤ) : Option Value :=
  if canSet = false then none
  else
    match f with
    | Value.int k _ => some (Value.int k (wrapSigned (k.bits intSize) x))
    | _ => none

/-- Go `reflect.Value.SetUint` with a `uint64` argument; it panics as `SetInt` does. -/
def Value.SetUint (intSize : Nat) (canSet : Bool) (f : Value) (x : Nat) : Option Value :=
  if canSet = false then none
  else
    match f with
    | Value.uint k _ => some (Value.uint k (wrapUnsigned (k.bits intSize) x))
    | _ => none

/-- Go `reflect.Value.SetString`; it panics as `SetInt` does. -/
def Value.SetString (canSet : Bool) (f : Value) (x : Str) : Option Value :=
  if canSet = false then none
  else
    match f with
    | Value.string _ => some (Value.string x)
    | _ => none

/-- Go `reflect.Value.SetBool`; it panics as `SetInt` does. -/
def Value.SetBool (canSet : Bool) (f : Value) (x : Bool) : Option Value :=
  if canSet = false then none
  else
    match f with
    | Value.bool _ => some (Value.bool x)
    | _ => none

/-! ## The binder -/

/-- The function `fieldName`. -/
def fieldName (f : StructField) : Str :=
  if f.Anonymous then []
  else
    let tag := f.tagGet "config".toList
    if tag ≠ [] then
      if tag = ['-'] then []
      else
        let tagParts := Split tag [',']
        if 1 ≤ tagParts.length then TrimSpace (tagParts.getD 0 [])
        else f.Name
    else f.Name

/-- The method `loadFieldInt`: the field afterwards and the error returned;
`canSet` tells whether the field `f` is assignable. -/
def Config.loadFieldInt (intSize : Nat) (c : Config) (canSet : GoBool) (f : Value) (name : Str) :
    Option (Value × Option Error) :=
  if name = [] then some (f, none)
  else
    match c.Int intSize name with
    | (_, some err) => some (f, some err)
    | (i, none) =>
      match f.SetInt intSize canSet (wrapSigned 64 i) with
      | none => none
      | some f1 => some (f1, none)

/-- The method `loadFieldUint`. -/
def Config.loadFieldUint (intSize : Nat) (c : Config) (canSet : GoBool) (f : Value) (name : Str) :
    Option (Value × Option Error) :=
  if name = [] then some (f, none)
  else
    match c.Int intSize name with
    | (_, some err) => some (f, some err)
    | (i, none) =>
      match f.SetUint intSize canSet (wrapUnsigned 64 i) with
      | none => none
      | some f1 => some (f1, none)

/-- The method `loadFieldBool`; `loadField` never calls it. -/
def Config.loadFieldBool (c : Config) (canSet : GoBool) (f : Value) (name : Str) :
    Option (Value × Option Error) :=
  if name = [] then some (f, none)
  else
    match c.Bool name with
    | (_, some err) => some (f, some err)
    | (i, none) =>
      match f.SetBool canSet i with
      | none => none
      | some f1 => some (f1, none)

/-- The method `loadFieldString`. -/
def Config.loadFieldString (c : Config) (canSet : GoBool) (f : Value) (name : Str) :
    Option (Value × Option Error) :=
  if name = [] then some (f, none)
  else
    match c.String name with
    | (_, some err) => some (f, some err)
    | (i, none) =>
      match f.SetString canSet i with
      | none => none
      | some f1 => some (f1, none)

/-- The method `loadField`: dispatch on the kind of the field. -/
def Config.loadField (intSize : Nat) (c : Config) (canSet : GoBool) (f : Value) (name : Str) :
    Option (Value × Option Error) :=
  match f.Kind with
  | Kind.Int | Kind.Int8 | Kind.Int16 | Kind.Int32 | Kind.Int64 =>
    c.loadFieldInt intSize canSet f name
  | Kind.Uint | Kind.Uint8 | Kind.Uint16 | Kind.Uint32 | Kind.Uint64 | Kind.Uintptr =>
    c.loadFieldUint intSize canSet f name
  | Kind.String => c.loadFieldString canSet f name
  | _ => some (f, some Error.ErrUnsupportedType)

/-- The method `loadStruct`, over the fields not yet visited: the fields
afterwards and the error returned; `canAddr` tells whether the struct is
addressable. The value `v.Field(i)` of a field is assignable when the struct is
addressable and the field is exported. -/
def Config.loadStruct (intSize : Nat) (c : Config) (canAddr : GoBool) :
    List (StructField × Value) → Option (List (StructField × Value) × Option Error)
  | [] => some ([], none)
  | (sf, f) :: rest =>
    match c.loadField intSize (canAddr && sf.IsExported) f (fieldName sf) with
    | none => none
    | some (f1, err) =>
      if err ≠ none ∧ err ≠ some Error.ErrNotFound then some ((sf, f1) :: rest, err)
      else
        match Config.loadStruct intSize c canAddr rest with
        | none => none
        | some (rest1, err1) => some ((sf, f1) :: rest1, err1)

/-- What the `interface{}` parameter of `Load` holds: nothing, a value of the
caller, or a `reflect.Value` (a struct of package `reflect`) describing a
value of the caller. -/
inductive Iface where
  | nil
  | val (v : Value)
  | reflectValue (e : Value)

/-- The kind of `reflect.ValueOf(st)`. -/
def Iface.Kind : Iface → Kind
  | Iface.nil => Kind.Invalid
  | Iface.val v => v.Kind
  | Iface.reflectValue _ => Kind.Struct

/-- How many nested calls of `Load` an argument can still cause. -/
def Iface.rank : Iface → Nat
  | Iface.val _ => 1
  | _ => 0

/-- The target `v.Elem()` of a pointer or interface value that is not nil. -/
def Iface.Elem : Iface → Option Value
  | Iface.val (Value.ptr e) => e
  | Iface.val (Value.iface e) => e
  | _ => none

/-- Whether the target `v.Elem()` is addressable: that of a pointer is, that of an
interface is not. -/
def Iface.elemCanAddr : Iface → Bool
  | Iface.val (Value.ptr _) => true
  | _ => false

/-- The same reference after its target has become `e`. -/
def Iface.setElem : Iface → Value → Iface
  | Iface.val (Value.ptr _), e => Iface.val (Value.ptr (some e))
  | Iface.val (Value.iface _), e => Iface.val (Value.iface (some e))
  | st, _ => st

/-- The value a `reflect.Value` argument describes; `e` for any other
argument. -/
def Iface.described : Iface → Value → Value
  | Iface.reflectValue e1, _ => e1
  | _, e => e

/-- The method `Load`: the argument afterwards (the same reference, its target
updated) and the error returned. The nested call `c.Load(e)` receives the
`reflect.Value` `e` itself. -/
def Config.Load (intSize : Nat) (c : Config) (st : Iface) : Option (Iface × Option Error) :=
  if _h : st.Kind ≠ Kind.Ptr ∧ st.Kind ≠ Kind.Interface then
    some (st, some Error.ErrUnsupportedType)
  else
    match st.Elem with
    | none => some (st, some Error.ErrUnsupportedType)
    | some e =>
      match e with
      | Value.struct fields =>
        match c.loadStruct intSize st.elemCanAddr fields with
        | none => none
        | some (fields1, err) => some (st.setElem (Value.struct fields1), err)
      | Value.iface _ | Value.ptr _ =>
        match Config.Load intSize c (Iface.reflectValue e) with
        | none => none
        | some (st1, err) => some (st.setElem (st1.described e), err)
      | _ => some (st, some Error.ErrUnsupportedType)
termination_by st.rank
decreasing_by
  all_goals
    cases st with
    | nil => exact absurd _h (by simp [Iface.Kind])
    | val v => simp [Iface.rank]
    | reflectValue e0 => exact absurd _h (by simp [Iface.Kind])

/-! ## Notions used to state the properties -/

/-- The name and the value of a valid line `a=b`: the line is cut at its first
`'='`, both parts are trimmed, and the trimmed name is neither empty nor
starts with `'#'`. Any other line has none. -/
def parseLine (line : Str) : Option (Str × Str) :=
  if '=' ∈ line then
    let a := line.takeWhile (fun ch => ch != '=')
    let b := (line.dropWhile (fun ch => ch != '=')).tail
    if TrimSpace a ≠ [] ∧ (TrimSpace a).head? ≠ some '#' then some (TrimSpace a, TrimSpace b)
    else none
  else none

/-- The lines of a text: its fragments between newline characters, the last
one included. -/
def textLines : Str → List Str
  | [] => [[]]
  | ch :: t =>
    if ch = '\n' then [] :: textLines t
    else
      match textLines t with
      | [] => [[ch]]
      | l :: ls => (ch :: l) :: ls

/-- Several texts loaded in succession with `LoadString`, as long as every
call returns without error. -/
def Config.LoadStrings (c : Config) : List Str → Option Config
  | [] => some c
  | t :: ts =>
    match c.LoadString t with
    | Outcome.ret (c1, none) => Config.LoadStrings c1 ts
    | _ => none

/-- Whether a text is a base-10 signed integer: an optional sign followed by
one or more decimal digits. -/
def isDecimalInt (t : Str) : Bool :=
  match t with
  | '+' :: ds => !ds.isEmpty && ds.all isDigit
  | '-' :: ds => !ds.isEmpty && ds.all isDigit
  | ds => !ds.isEmpty && ds.all isDigit

/-- The decimal rendering of an integer, as Go `strconv.Itoa` writes it. -/
def Itoa (k : ℤ) : Str :=
  if k < 0 then '-' :: Nat.toDigits 10 k.natAbs else Nat.toDigits 10 k.natAbs

/-- The method `setLine` applied to each line in turn. -/
def Config.setLines (c : Config) : List Str → Option Config
  | [] => some c
  | l :: ls =>
    match c.setLine l with
    | none => none
    | some c1 => Config.setLines c1 ls

/-- An allocated map after one line has been parsed into it. -/
def applyLine (m : Str → Option Str) (line : Str) : Str → Option Str :=
  match parseLine line with
  | none => m
  | some (n, v) => fun x => if x = n then some v else m x

/-- The allocated map that `LoadReader` starts from. -/
def GoMap.alloc (m : GoMap) : Str → Option Str :=
  match m with
  | none => fun _ => none
  | some f => f

/-- A pointer to a record with the given fields, as handed to `Load`. -/
def recordPtr (fields : List (StructField × Value)) : Iface :=
  Iface.val (Value.ptr (some (Value.struct fields)))

/-- The value a field holds once it has been bound under the logical name
`name`: a text field takes the text of the store; an integer field takes the
parsed integer, converted to 64 bits and then to the width of the field. A
field with the empty logical name, with a name absent from the store, with a
malformed number, or of a kind without a binding rule keeps its value. -/
def Config.boundValue (intSize : Nat) (c : Config) (name : Str) (f : Value) : Value :=
  if name = [] then f
  else
    match f with
    | Value.string _ =>
      (match c.String name with
       | (v, none) => Value.string v
       | _ => f)
    | Value.int k _ =>
      (match c.Int intSize name with
       | (i, none) => Value.int k (wrapSigned (k.bits intSize) (wrapSigned 64 i))
       | _ => f)
    | Value.uint k _ =>
      (match c.Int intSize name with
       | (i, none) => Value.uint k (wrapUnsigned (k.bits intSize) (wrapUnsigned 64 i))
       | _ => f)
    | _ => f

/-- A field of a record once bound. -/
def Config.boundField (intSize : Nat) (c : Config) (x : StructField × Value) :
    StructField × Value :=
  (x.1, c.boundValue intSize (fieldName x.1) x.2)

/-- Binding the field of a record behind a pointer does not fail hard: `loadField`
returns (no setter panics; the field is assignable when it is exported), with no
error or with `ErrNotFound`. -/
def Config.fieldSucceeds (intSize : Nat) (c : Config) (x : StructField × Value) : GoBool :=
  match c.loadField intSize x.1.IsExported x.2 (fieldName x.1) with
  | some (_, none) => true
  | some (_, some Error.ErrNotFound) => true
  | _ => false

/-- The store of the lines `Name=piyo` and `Age=28`. -/
def nameAgeStore : Config :=
  Config.mk (some (fun x => if x = "Name".toList then some "piyo".toList
    else if x = "Age".toList then some "28".toList else none)) none

/-- The store of the lines `name=piyo` and `age=28`. -/
def lowerNameAgeStore : Config :=
  Config.mk (some (fun x => if x = "name".toList then some "piyo".toList
    else if x = "age".toList then some "28".toList else none)) none

/-- The zero value of the record `person` of the tests: `Name string; Age int`. -/
def personZero : List (StructField × Value) :=
  [(⟨"Name".toList, [], false⟩, Value.string []),
   (⟨"Age".toList, [], false⟩, Value.int IntKind.Int 0)]

/-- A reader that replays a script: each call of `ReadString` hands out the next
scripted result, and an exhausted script reports `io.EOF`. -/
def scriptReadString : ReadStringFn (List (Str × Option Error)) := fun script _ =>
  match script with
  | [] => (([], some Error.EOF), [])
  | x :: rest => (x, rest)

/-- From the state `r` the reader yields the given lines, one per call and each
with no error, and then fails: the next call returns the fragment `frag` with
the error `e` and leaves the reader in the state `r1`. -/
def yieldsThenFails {σ : Type} (rs : ReadStringFn σ) :
    σ → List Str → Str → Error → σ → Prop
  | r, [], frag, e, r1 => rs r '\n' = ((frag, some e), r1)
  | r, l :: ls, frag, e, r1 =>
    ∃ r0, rs r '\n' = ((l, none), r0) ∧ yieldsThenFails rs r0 ls frag e r1

/-- The store with `Values` allocated, as `LoadReader` makes it before its loop. -/
def Config.allocated (c : Config) : Config :=
  { c with Values := some c.Values.alloc }

/-- The texts that `strconv.ParseBool` reads as true. -/
def trueLiterals : List Str :=
  ["1".toList, "t".toList, "T".toList, "TRUE".toList, "true".toList, "True".toList]

/-- The texts that `strconv.ParseBool` reads as false. -/
def falseLiterals : List Str :=
  ["0".toList, "f".toList, "F".toList, "FALSE".toList, "false".toList, "False".toList]

/-- A text with its upper-case letters turned into lower case. -/
def lowerCase (t : Str) : Str :=
  t.map Char.toLower

/-- An integer reduced to `w`-bit two's complement: its residue modulo `2 ^ w`, read as
a signed number. -/
def toSigned (w : Nat) (n : ℤ) : ℤ :=
  if n % 2 ^ w < 2 ^ (w - 1) then n % 2 ^ w else n % 2 ^ w - 2 ^ w

/-! ## Lemmas on lists and trimming -/

section Lists

variable {α : Type} (p : α → Bool)

theorem dropWhile_append_neg (u w : List α) (c : α) (hc : p c = false) :
    (u ++ c :: w).dropWhile p = u.dropWhile p ++ c :: w := by
  induction u with
  | nil => simp [List.dropWhile_cons, hc]
  | cons x t ih => by_cases hx : p x <;> simp [List.dropWhile_cons, hx, ih]

theorem rdropWhile_append_neg (u w : List α) (c : α) (hc : p c = false) :
    (u ++ c :: w).rdropWhile p = u ++ c :: w.rdropWhile p := by
  simp only [List.rdropWhile, List.reverse_append, List.reverse_cons, List.append_assoc,
    List.singleton_append]
  rw [dropWhile_append_neg p _ _ c hc]
  simp

theorem rdropWhile_append_pos (u w : List α) (hw : ∀ x ∈ w, p x = true) :
    (u ++ w).rdropWhile p = u.rdropWhile p := by
  simp only [List.rdropWhile, List.reverse_append]
  rw [List.dropWhile_append_of_pos (by simpa using hw)]

theorem dropWhile_rdropWhile_comm (l : List α) :
    (l.rdropWhile p).dropWhile p = (l.dropWhile p).rdropWhile p := by
  by_cases h : ∀ x ∈ l, p x = true
  · have h1 : l.rdropWhile p = [] := List.rdropWhile_eq_nil_iff.mpr h
    have h2 : l.dropWhile p = [] := List.dropWhile_eq_nil_iff.mpr h
    simp [h1, h2]
  · have hne : l.dropWhile p ≠ [] := fun h0 => h (List.dropWhile_eq_nil_iff.mp h0)
    obtain ⟨c, w, hcw⟩ := List.exists_cons_of_ne_nil hne
    have hc : p c = false := by
      have := List.head_dropWhile_not p l hne
      simpa [hcw] using this
    have hl : l = l.takeWhile p ++ c :: w := by
      rw [← hcw, List.takeWhile_append_dropWhile]
    have htw : ∀ x ∈ l.takeWhile p, p x = true := fun x hx => List.mem_takeWhile_imp hx
    rw [hcw]
    conv_lhs => rw [hl]
    rw [rdropWhile_append_neg p _ _ c hc, dropWhile_append_neg p _ _ c hc,
      List.dropWhile_eq_nil_iff.mpr htw]
    have := rdropWhile_append_neg p [] w c hc
    simpa using this.symm

theorem head?_rdropWhile (l : List α) (c : α) (t : List α) (hl : l = c :: t)
    (hc : p c = false) : (l.rdropWhile p).head? = some c := by
  subst hl
  have := rdropWhile_append_neg p [] t c hc
  simp at this
  simp [this]

end Lists

/-! ## Trimming and cutting a line -/

theorem isSpace_sep : IsSpace '=' = false := by decide

theorem isSpace_newline : IsSpace '\n' = true := by decide

theorem trimSpace_eq_nil_iff (a : Str) : TrimSpace a = [] ↔ a.dropWhile IsSpace = [] := by
  constructor
  · intro h
    by_contra hne
    obtain ⟨x, t, hxt⟩ := List.exists_cons_of_ne_nil hne
    have hx : IsSpace x = false := by
      have := List.head_dropWhile_not IsSpace a hne
      simpa [hxt] using this
    have := head?_rdropWhile IsSpace _ x t hxt hx
    unfold TrimSpace at h
    rw [h] at this
    simp at this
  · intro h
    simp [TrimSpace, h]

theorem head?_trimSpace (a : Str) : (TrimSpace a).head? = (a.dropWhile IsSpace).head? := by
  by_cases hne : a.dropWhile IsSpace = []
  · simp [TrimSpace, hne]
  · obtain ⟨x, t, hxt⟩ := List.exists_cons_of_ne_nil hne
    have hx : IsSpace x = false := by
      have := List.head_dropWhile_not IsSpace a hne
      simpa [hxt] using this
    rw [TrimSpace, head?_rdropWhile IsSpace _ x t hxt hx, hxt]
    rfl

theorem trimSpace_dropWhile (a : Str) : TrimSpace (a.dropWhile IsSpace) = TrimSpace a := by
  simp [TrimSpace, List.dropWhile_idempotent]

theorem trimSpace_rdropWhile (b : Str) : TrimSpace (b.rdropWhile IsSpace) = TrimSpace b := by
  simp [TrimSpace, dropWhile_rdropWhile_comm, List.rdropWhile_idempotent]

theorem trimSpace_append_blank (s w : Str) (hw : ∀ x ∈ w, IsSpace x = true) :
    TrimSpace (s ++ w) = TrimSpace s := by
  unfold TrimSpace
  rw [← dropWhile_rdropWhile_comm, ← dropWhile_rdropWhile_comm, rdropWhile_append_pos _ _ _ hw]

theorem trimSpace_sep (a b : Str) :
    TrimSpace (a ++ '=' :: b) = a.dropWhile IsSpace ++ '=' :: b.rdropWhile IsSpace := by
  unfold TrimSpace
  rw [dropWhile_append_neg IsSpace _ _ _ isSpace_sep,
    rdropWhile_append_neg IsSpace _ _ _ isSpace_sep]

theorem trimSpace_sep_of_blank (a b : Str) (ha : a.dropWhile IsSpace = []) :
    TrimSpace (a ++ '=' :: b) = '=' :: b.rdropWhile IsSpace := by
  rw [trimSpace_sep, ha]
  rfl

theorem not_mem_trimSpace (ch : Char) (s : Str) (h : ch ∉ s) : ch ∉ TrimSpace s := by
  intro hm
  have h1 : ch ∈ s.dropWhile IsSpace := (List.rdropWhile_prefix IsSpace _).subset hm
  exact h ((List.dropWhile_suffix IsSpace).subset h1)

theorem indexFrom_singleton_not_mem (ch : Char) (s : Str) (i : Nat) (h : ch ∉ s) :
    indexFrom [ch] s i = -1 := by
  induction s generalizing i with
  | nil => simp [indexFrom]
  | cons x t ih =>
    have hx : ch ≠ x := fun e => h (by simp [e])
    have ht : ch ∉ t := fun e => h (by simp [e])
    simp [indexFrom, List.isPrefixOf, hx, ih _ ht]

theorem indexFrom_singleton_append (ch : Char) (a b : Str) (i : Nat) (h : ch ∉ a) :
    indexFrom [ch] (a ++ ch :: b) i = ((i + a.length : Nat) : ℤ) := by
  induction a generalizing i with
  | nil => simp [indexFrom, List.isPrefixOf]
  | cons x t ih =>
    have hx : ch ≠ x := fun e => h (by simp [e])
    have ht : ch ∉ t := fun e => h (by simp [e])
    simp [indexFrom, List.isPrefixOf, hx, ih _ ht]
    omega

theorem cut_first_sep (line : Str) (h : '=' ∈ line) :
    line = line.takeWhile (fun ch => ch != '=')
        ++ '=' :: (line.dropWhile (fun ch => ch != '=')).tail
      ∧ '=' ∉ line.takeWhile (fun ch => ch != '=') := by
  have hne : line.dropWhile (fun ch => ch != '=') ≠ [] := by
    intro h0
    have := List.dropWhile_eq_nil_iff.mp h0 '=' h
    simp at this
  obtain ⟨x, t, hxt⟩ := List.exists_cons_of_ne_nil hne
  have hx : x = '=' := by
    have := List.head_dropWhile_not (fun ch => ch != '=') line hne
    simpa [hxt] using this
  constructor
  · conv_lhs => rw [← List.takeWhile_append_dropWhile (fun ch => ch != '=') line]
    rw [hxt, hx]
    rfl
  · intro hm
    have := List.mem_takeWhile_imp hm
    simp at this

theorem setLine_no_sep (c : Config) (line : Str) (h : '=' ∉ line) : c.setLine line = some c := by
  have hI : Index (TrimSpace line) Separator ≤ 0 := by
    rw [Index, Separator, indexFrom_singleton_not_mem _ _ _ (not_mem_trimSpace _ _ h)]
    decide
  simp only [Config.setLine]
  split_ifs <;> rfl

theorem setLine_sep (c : Config) (a b : Str) (ha : '=' ∉ a) :
    c.setLine (a ++ '=' :: b) =
      if TrimSpace a ≠ [] ∧ (TrimSpace a).head? ≠ some '#' then
        (match c.Values.set (TrimSpace a) (TrimSpace b) with
         | none => none
         | some m => some { c with Values := m })
      else some c := by
  by_cases hb : a.dropWhile IsSpace = []
  · have ht := trimSpace_sep_of_blank a b hb
    have hn : TrimSpace a = [] := (trimSpace_eq_nil_iff a).mpr hb
    have hI : Index (TrimSpace (a ++ '=' :: b)) Separator ≤ 0 := by
      rw [ht, Index, Separator]
      simp [indexFrom, List.isPrefixOf]
    rw [if_neg (by simp [hn])]
    simp only [Config.setLine]
    split_ifs <;> rfl
  · have ht := trimSpace_sep a b
    have hn : TrimSpace a ≠ [] := fun h0 => hb ((trimSpace_eq_nil_iff a).mp h0)
    have hmem : '=' ∉ a.dropWhile IsSpace := fun hm => ha ((List.dropWhile_suffix IsSpace).subset hm)
    have hI : Index (TrimSpace (a ++ '=' :: b)) Separator = ((a.dropWhile IsSpace).length : ℤ) := by
      rw [ht, Index, Separator, indexFrom_singleton_append _ _ _ _ hmem]
      simp
    have hlen : 0 < (a.dropWhile IsSpace).length := List.length_pos.mpr hb
    have hpre : HasPrefix (TrimSpace (a ++ '=' :: b)) ['#'] = true ↔
        (TrimSpace a).head? = some '#' := by
      rw [ht, head?_trimSpace]
      obtain ⟨x, t, hxt⟩ := List.exists_cons_of_ne_nil hb
      rw [hxt]
      simp only [HasPrefix, List.isPrefixOf, List.cons_append, List.head?_cons, Bool.and_true,
        beq_iff_eq, Option.some.injEq]
      exact eq_comm
    have hsplit : SplitN (TrimSpace (a ++ '=' :: b)) Separator 2
        = [a.dropWhile IsSpace, b.rdropWhile IsSpace] := by
      have h2 : ((2 : ℤ).toNat - 1) = 1 := by decide
      simp only [SplitN]
      rw [if_neg (by decide), if_neg (by decide), if_neg (by decide), h2]
      simp only [genSplit]
      rw [hI, ht]
      simp [Separator]
    simp only [Config.setLine]
    rw [if_neg (by rw [ht]; simp)]
    by_cases hh : (TrimSpace a).head? = some '#'
    · rw [if_pos (hpre.mpr hh), if_neg (by simp [hh])]
    · rw [if_neg (fun h0 => hh (hpre.mp h0)), if_neg (by rw [hI]; omega), hsplit]
      simp [hn, hh, trimSpace_dropWhile, trimSpace_rdropWhile]

/-- The parse-one-line rule of the source agrees with the cut at the first
separator. -/
theorem setLine_eq_parseLine (c : Config) (line : Str) :
    c.setLine line =
      match parseLine line with
      | none => some c
      | some (n, v) =>
        (match c.Values.set n v with
         | none => none
         | some m => some { c with Values := m }) := by
  by_cases h : '=' ∈ line
  · obtain ⟨hcut, hnot⟩ := cut_first_sep line h
    have hs := setLine_sep c _ ((line.dropWhile (fun ch => ch != '=')).tail) hnot
    rw [← hcut] at hs
    rw [hs]
    simp only [parseLine, if_pos h]
    split_ifs <;> rfl
  · rw [setLine_no_sep c line h]
    simp [parseLine, h]

/-! ## Loading a text -/

theorem setLine_append_blank (c : Config) (l w : Str) (hw : ∀ x ∈ w, IsSpace x = true) :
    c.setLine (l ++ w) = c.setLine l := by
  simp only [Config.setLine, trimSpace_append_blank l w hw]

theorem setLine_alloc (c : Config) (m : Str → Option Str) (hm : c.Values = some m)
    (line : Str) :
    c.setLine line = some { c with Values := some (applyLine m line) } := by
  rw [setLine_eq_parseLine]
  unfold applyLine
  cases hp : parseLine line with
  | none =>
    cases c
    simp_all
  | some nv =>
    obtain ⟨n, v⟩ := nv
    simp [hm, GoMap.set]

theorem setLines_alloc (c : Config) (m : Str → Option Str) (hm : c.Values = some m)
    (ls : List Str) :
    c.setLines ls = some { c with Values := some (ls.foldl applyLine m) } := by
  induction ls generalizing c m with
  | nil =>
    cases c
    simp_all [Config.setLines]
  | cons l t ih =>
    simp only [Config.setLines, setLine_alloc c m hm l, List.foldl_cons]
    exact ih _ _ rfl

theorem textLines_ne_nil (s : Str) : textLines s ≠ [] := by
  cases s with
  | nil => simp [textLines]
  | cons ch t =>
    simp only [textLines]
    split_ifs
    · simp
    · split <;> simp

theorem textLines_of_not_mem (l : Str) (h : '\n' ∉ l) : textLines l = [l] := by
  induction l with
  | nil => rfl
  | cons ch t ih =>
    have hc : ch ≠ '\n' := fun e => h (by simp [e])
    have ht : '\n' ∉ t := fun e => h (by simp [e])
    simp [textLines, hc, ih ht]

theorem textLines_append (l rest : Str) (h : '\n' ∉ l) :
    textLines (l ++ '\n' :: rest) = l :: textLines rest := by
  induction l with
  | nil => simp [textLines]
  | cons ch t ih =>
    have hc : ch ≠ '\n' := fun e => h (by simp [e])
    have ht : '\n' ∉ t := fun e => h (by simp [e])
    simp [textLines, hc, ih ht]

theorem bufferReadString_last (s : Str) (h : '\n' ∉ s) :
    bufferReadString s '\n' = ((s, some Error.EOF), []) := by
  simp [bufferReadString, List.indexOf_eq_length.mpr h]

theorem bufferReadString_line (l rest : Str) (h : '\n' ∉ l) :
    bufferReadString (l ++ '\n' :: rest) '\n' = ((l ++ ['\n'], none), rest) := by
  have hi : List.indexOf '\n' (l ++ '\n' :: rest) = l.length := by
    rw [List.indexOf_append_of_not_mem h, List.indexOf_cons_self]
    rfl
  simp only [bufferReadString, hi]
  rw [if_pos (by simp)]
  simp [List.take_append_eq_append_take, List.drop_append_eq_append_drop]

/-- The loop over a buffer parses the lines of the text in order, and ends
within as many reads as the text has lines. -/
theorem readLoop_buffer (fuel : Nat) (c : Config) (s : Str)
    (hf : (textLines s).length ≤ fuel) :
    Config.readLoop bufferReadString fuel c s =
      match c.setLines (textLines s) with
      | none => Outcome.panic
      | some c1 => Outcome.ret (c1, [], none) := by
  induction fuel generalizing c s with
  | zero =>
    have := List.length_pos.mpr (textLines_ne_nil s)
    omega
  | succ k ih =>
    by_cases h : '\n' ∈ s
    · obtain ⟨l, rest, hs, hl⟩ := List.eq_append_cons_of_mem h
      subst hs
      have hnl : ∀ x ∈ ['\n'], IsSpace x = true := by
        intro x hx
        simp at hx
        subst hx
        exact isSpace_newline
      rw [textLines_append l rest hl] at hf ⊢
      simp only [Config.readLoop, bufferReadString_line l rest hl, Config.setLines,
        setLine_append_blank c l _ hnl]
      cases hc : c.setLine l with
      | none => rfl
      | some c1 =>
        simp only []
        exact ih c1 rest (by simpa using hf)
    · rw [textLines_of_not_mem s h]
      simp only [Config.readLoop, bufferReadString_last s h, Config.setLines]
      cases hc : c.setLine s with
      | none => simp
      | some c1 => simp

theorem textLines_length_le (s : Str) : (textLines s).length ≤ s.length + 1 := by
  induction s with
  | nil => simp [textLines]
  | cons ch t ih =>
    simp only [textLines]
    split_ifs
    · simpa using ih
    · split
      · simp
      · rename_i l ls heq
        rw [heq] at ih
        simp at ih ⊢
        omega

/-- The method `LoadString` always returns, with no error, and leaves `Values` the
allocated map into which the lines of the text were parsed in order. -/
theorem LoadString_eq (c : Config) (s : Str) :
    c.LoadString s =
      Outcome.ret ({ c with Values := some ((textLines s).foldl applyLine c.Values.alloc) },
        none) := by
  have key : ∀ c0 : Config, ∀ m, c0.Values = some m →
      (match Config.readLoop bufferReadString (s.length + 1) c0 s with
        | Outcome.ret (c1, _, err) => Outcome.ret (c1, err)
        | Outcome.panic => Outcome.panic
        | Outcome.outOfFuel => Outcome.outOfFuel)
      = Outcome.ret ({ c0 with Values := some ((textLines s).foldl applyLine m) }, none) := by
    intro c0 m hm
    rw [readLoop_buffer _ c0 s (textLines_length_le s), setLines_alloc c0 m hm]
  unfold Config.LoadString Config.LoadReader
  cases hv : c.Values with
  | none =>
    simp only []
    rw [key _ _ rfl]
    rfl
  | some m =>
    simp only []
    rw [key _ _ hv]
    rfl

theorem string_of_values (c : Config) (m : Str → Option Str) (hm : c.Values = some m)
    (k v : Str) (hk : m k = some v) : c.String k = (v, none) := by
  simp [Config.String, GoMap.get, hm, hk]

theorem parseLine_sep (a b : Str) (ha : '=' ∉ a) :
    parseLine (a ++ '=' :: b) =
      if TrimSpace a ≠ [] ∧ (TrimSpace a).head? ≠ some '#' then some (TrimSpace a, TrimSpace b)
      else none := by
  have hpos : ∀ x ∈ a, (fun ch => ch != '=') x = true := by
    intro x hx
    have : x ≠ '=' := fun e => ha (e ▸ hx)
    simpa using this
  have htake : (a ++ '=' :: b).takeWhile (fun ch => ch != '=') = a := by
    rw [List.takeWhile_append_of_pos hpos]
    simp [List.takeWhile_cons]
  have hdrop : (a ++ '=' :: b).dropWhile (fun ch => ch != '=') = '=' :: b := by
    rw [List.dropWhile_append_of_pos hpos]
    simp [List.dropWhile_cons]
  simp only [parseLine, htake, hdrop, List.tail_cons]
  rw [if_pos (by simp)]

theorem foldl_applyLine_of_other (n : Str) (post : List Str)
    (h : ∀ l1 ∈ post, (parseLine l1).map Prod.fst ≠ some n) (m : Str → Option Str) :
    post.foldl applyLine m n = m n := by
  induction post generalizing m with
  | nil => rfl
  | cons l t ih =>
    rw [List.foldl_cons, ih (fun l1 h1 => h l1 (List.mem_cons_of_mem _ h1))]
    have hl := h l (List.mem_cons_self _ _)
    unfold applyLine
    cases hp : parseLine l with
    | none => rfl
    | some nv =>
      obtain ⟨n1, v1⟩ := nv
      have hne : n ≠ n1 := by
        intro e
        apply hl
        simp [hp, e]
      simp [hne]

theorem LoadStrings_alloc (texts : List Str) (c : Config) (m : Str → Option Str)
    (hm : c.Values = some m) :
    c.LoadStrings texts =
      some { c with Values := some ((texts.flatMap textLines).foldl applyLine m) } := by
  induction texts generalizing c m with
  | nil =>
    cases c
    simp_all [Config.LoadStrings]
  | cons t ts ih =>
    simp only [Config.LoadStrings, LoadString_eq]
    rw [ih _ _ rfl]
    simp [hm, GoMap.alloc, List.flatMap_cons]

theorem LoadStrings_cons (t : Str) (ts : List Str) (c : Config) :
    c.LoadStrings (t :: ts) =
      some { c with
        Values := some (((t :: ts).flatMap textLines).foldl applyLine c.Values.alloc) } := by
  simp only [Config.LoadStrings, LoadString_eq]
  rw [LoadStrings_alloc ts _ _ rfl]
  simp [List.flatMap_cons]

/-! ## Decimal numbers -/

theorem digitChar_spec (d : Nat) (hd : d < 10) :
    isDigit (Nat.digitChar d) = true ∧ (Nat.digitChar d).toNat - 48 = d := by
  interval_cases d <;> decide

theorem digitsValue_append (xs : Str) (ch : Char) :
    digitsValue (xs ++ [ch]) = digitsValue xs * 10 + (ch.toNat - 48) := by
  simp [digitsValue, List.foldl_append]

theorem toDigitsCore_acc (fuel n : Nat) (acc : Str) :
    Nat.toDigitsCore 10 fuel n acc = Nat.toDigitsCore 10 fuel n [] ++ acc := by
  induction fuel generalizing n acc with
  | zero => simp [Nat.toDigitsCore]
  | succ f ih =>
    simp only [Nat.toDigitsCore]
    split_ifs
    · simp
    · rw [ih (n / 10) (Nat.digitChar (n % 10) :: acc), ih (n / 10) [Nat.digitChar (n % 10)]]
      simp

theorem toDigitsCore_spec (fuel n : Nat) (h : n < fuel) :
    Nat.toDigitsCore 10 fuel n [] ≠ []
    ∧ (Nat.toDigitsCore 10 fuel n []).all isDigit = true
    ∧ digitsValue (Nat.toDigitsCore 10 fuel n []) = n := by
  induction fuel generalizing n with
  | zero => omega
  | succ f ih =>
    have hd := digitChar_spec (n % 10) (Nat.mod_lt _ (by decide))
    simp only [Nat.toDigitsCore]
    split_ifs with h0
    · refine ⟨by simp, by simp [hd.1], ?_⟩
      have : digitsValue [Nat.digitChar (n % 10)] = (Nat.digitChar (n % 10)).toNat - 48 := by
        simp [digitsValue]
      rw [this, hd.2]
      omega
    · have hlt : n / 10 < f := by omega
      obtain ⟨h1, h2, h3⟩ := ih (n / 10) hlt
      rw [toDigitsCore_acc]
      refine ⟨by simp [h1], ?_, ?_⟩
      · rw [List.all_append, h2]
        simp [hd.1]
      · rw [digitsValue_append, h3, hd.2]
        omega

theorem toDigits_spec (n : Nat) :
    Nat.toDigits 10 n ≠ [] ∧ (Nat.toDigits 10 n).all isDigit = true
      ∧ digitsValue (Nat.toDigits 10 n) = n :=
  toDigitsCore_spec (n + 1) n (Nat.lt_succ_self n)

theorem foldl_digits_ge (ds : Str) (n : Nat) :
    n ≤ ds.foldl (fun n ch => n * 10 + (ch.toNat - 48)) n := by
  induction ds generalizing n with
  | nil => exact Nat.le_refl n
  | cons ch rest ih =>
    rw [List.foldl_cons]
    exact Nat.le_trans (by omega) (ih _)

/-- Digits whose number stays within `maxVal` and within 63 bits are read
without error. -/
theorem parseUintDigits_ok (maxVal : Nat) (ds : Str) (n : Nat)
    (hall : ds.all isDigit = true)
    (hmax : ds.foldl (fun n ch => n * 10 + (ch.toNat - 48)) n ≤ maxVal)
    (h63 : ds.foldl (fun n ch => n * 10 + (ch.toNat - 48)) n ≤ 9223372036854775808) :
    parseUintDigits maxVal ds n = (ds.foldl (fun n ch => n * 10 + (ch.toNat - 48)) n, none) := by
  induction ds generalizing n with
  | nil => rfl
  | cons ch rest ih =>
    simp only [List.all_cons, Bool.and_eq_true] at hall
    rw [List.foldl_cons] at hmax h63 ⊢
    have hge := foldl_digits_ge rest (n * 10 + (ch.toNat - 48))
    simp only [parseUintDigits, maxUint64]
    rw [if_neg (by simp [hall.1]), if_neg (by omega), if_neg (by omega)]
    exact ih _ hall.2 hmax h63

/-- Text with a character that is no digit is never read without error. -/
theorem parseUintDigits_bad (maxVal : Nat) (ds : Str) (n : Nat)
    (hall : ds.all isDigit = false) :
    parseUintDigits maxVal ds n = (0, some NumErr.ErrSyntax)
    ∨ parseUintDigits maxVal ds n = (maxVal, some NumErr.ErrRange) := by
  induction ds generalizing n with
  | nil => simp at hall
  | cons ch rest ih =>
    simp only [parseUintDigits]
    split_ifs with h1 h2 h3
    · exact Or.inl rfl
    · exact Or.inr rfl
    · exact Or.inr rfl
    · apply ih
      have hd : isDigit ch = true := by simpa using h1
      simpa [hd] using hall

theorem two_pow_pred_lt (w : Nat) (hw : 2 ≤ w) : 2 ^ (w - 1) < 2 ^ w - 1 := by
  obtain ⟨v, rfl⟩ : ∃ v, w = v + 2 := ⟨w - 2, by omega⟩
  have h : 2 ^ (v + 2) = 2 * 2 ^ (v + 1) := by rw [pow_succ, Nat.mul_comm]
  have h2 : 2 ≤ 2 ^ (v + 1) := by
    calc 2 = 2 ^ 1 := by norm_num
      _ ≤ 2 ^ (v + 1) := Nat.pow_le_pow_right (by norm_num) (by omega)
  simp only [Nat.add_sub_cancel, show v + 2 - 1 = v + 1 from by omega]
  omega

theorem parseInt_of_digits (w : Nat) (s ds : Str) (neg : Bool) (un : Nat)
    (hs : s ≠ []) (hneg : (decide (s.head? = some '-')) = neg)
    (hds : (if s.head? = some '+' ∨ s.head? = some '-' then s.tail else s) = ds)
    (hu : ParseUint w ds = (un, none))
    (h1 : ¬ (neg = false ∧ 2 ^ (w - 1) ≤ un)) (h2 : ¬ (neg = true ∧ 2 ^ (w - 1) < un)) :
    ParseInt w s = ((if neg then -(un : ℤ) else (un : ℤ)), none) := by
  unfold ParseInt
  rw [if_neg hs]
  simp only [hneg, hds, hu]
  rw [if_neg h1, if_neg h2]

theorem atoi_itoa (intSize : Nat) (k : ℤ) (hpos : 0 < intSize) (h64 : intSize ≤ 64)
    (hlo : -(2 ^ (intSize - 1) : ℤ) ≤ k) (hhi : k < 2 ^ (intSize - 1)) :
    Atoi intSize (Itoa k) = (k, none) := by
  obtain ⟨hne, hall, hval⟩ := toDigits_spec k.natAbs
  obtain ⟨d, ds, hds⟩ := List.exists_cons_of_ne_nil hne
  have hd : isDigit d = true := by
    rw [hds] at hall
    simp only [List.all_cons, Bool.and_eq_true] at hall
    exact hall.1
  have hplus : d ≠ '+' := by
    intro e
    rw [e] at hd
    exact absurd hd (by decide)
  have hminus : d ≠ '-' := by
    intro e
    rw [e] at hd
    exact absurd hd (by decide)
  have hcut : ((2 ^ (intSize - 1) : Nat) : ℤ) = 2 ^ (intSize - 1) := by push_cast; rfl
  have habs_le : k.natAbs ≤ 2 ^ (intSize - 1) := by
    have : (k.natAbs : ℤ) ≤ ((2 ^ (intSize - 1) : Nat) : ℤ) := by
      rw [hcut]
      omega
    exact_mod_cast this
  have hp63 : 2 ^ (intSize - 1) ≤ 9223372036854775808 := by
    calc 2 ^ (intSize - 1) ≤ 2 ^ 63 := Nat.pow_le_pow_right (by norm_num) (by omega)
      _ = 9223372036854775808 := by norm_num
  have hpmax : 2 ^ (intSize - 1) ≤ 2 ^ intSize - 1 := by
    obtain ⟨v, rfl⟩ : ∃ v, intSize = v + 1 := ⟨intSize - 1, by omega⟩
    have h : 2 ^ (v + 1) = 2 * 2 ^ v := by rw [pow_succ, Nat.mul_comm]
    have h0 : 0 < 2 ^ v := by positivity
    simp only [Nat.add_sub_cancel]
    omega
  have hu : ParseUint intSize (Nat.toDigits 10 k.natAbs) = (k.natAbs, none) := by
    unfold ParseUint
    rw [if_neg hne, parseUintDigits_ok _ _ 0 hall]
    · exact congrArg (fun v => (v, (none : Option NumErr))) hval
    · show digitsValue _ ≤ _
      rw [hval]
      omega
    · show digitsValue _ ≤ _
      rw [hval]
      omega
  by_cases hk : k < 0
  · have hI : Itoa k = '-' :: Nat.toDigits 10 k.natAbs := by simp [Itoa, hk]
    have habs : (k.natAbs : ℤ) = -k := by omega
    have hle : ¬ (2 ^ (intSize - 1) < k.natAbs) := by omega
    have hP := parseInt_of_digits intSize (Itoa k) (Nat.toDigits 10 k.natAbs) true k.natAbs
      (by rw [hI]; simp) (by rw [hI]; rfl) (by rw [hI]; simp) hu (by simp)
      (by simp [hle])
    unfold Atoi
    rw [hP]
    simp [habs]
  · have hI : Itoa k = Nat.toDigits 10 k.natAbs := by simp [Itoa, hk]
    have habs : (k.natAbs : ℤ) = k := by omega
    have hle : ¬ (2 ^ (intSize - 1) ≤ k.natAbs) := by
      intro h
      have : ((2 ^ (intSize - 1) : Nat) : ℤ) ≤ (k.natAbs : ℤ) := by exact_mod_cast h
      rw [hcut, habs] at this
      omega
    have hP := parseInt_of_digits intSize (Itoa k) (Nat.toDigits 10 k.natAbs) false k.natAbs
      (by rw [hI]; exact hne) (by rw [hI, hds]; simp [hminus])
      (by rw [hI, hds]; simp [hplus, hminus]) hu (by simp [hle]) (by simp)
    unfold Atoi
    rw [hP]
    simp [habs]

theorem atoi_error (intSize : Nat) (t : Str) (e : Error) (h : (Atoi intSize t).2 = some e) :
    ∃ kind, e = Error.NumError "Atoi".toList t kind := by
  unfold Atoi at h
  rcases hP : ParseInt intSize t with ⟨i, _ | kind⟩
  · rw [hP] at h
    simp at h
  · rw [hP] at h
    exact ⟨kind, (Option.some.inj h).symm⟩

/-- A text that is not an optional sign followed by digits is rejected by
`Atoi`: with a syntax error, or with a range error when its digits leave the
range before the offending character is reached. -/
theorem atoi_malformed (intSize : Nat) (t : Str) (hsize : 2 ≤ intSize)
    (h : isDecimalInt t = false) :
    ∃ v kind, Atoi intSize t = (v, some (Error.NumError "Atoi".toList t kind)) := by
  have key : (if t.head? = some '+' ∨ t.head? = some '-' then t.tail else t) = []
      ∨ (if t.head? = some '+' ∨ t.head? = some '-' then t.tail else t).all isDigit = false := by
    unfold isDecimalInt at h
    split at h
    · simpa [List.isEmpty_iff, or_iff_not_imp_left] using h
    · simpa [List.isEmpty_iff, or_iff_not_imp_left] using h
    · rename_i hp hm
      have h1 : ¬ (t.head? = some '+' ∨ t.head? = some '-') := by
        cases t with
        | nil => simp
        | cons x r =>
          simp only [List.head?_cons, Option.some.injEq]
          rintro (e | e)
          · exact hp r (by rw [e])
          · exact hm r (by rw [e])
      rw [if_neg h1]
      simpa [List.isEmpty_iff, or_iff_not_imp_left] using h
  have hP : ∃ v kind, ParseInt intSize t = (v, some kind) := by
    unfold ParseInt
    by_cases ht : t = []
    · rw [if_pos ht]
      exact ⟨_, _, rfl⟩
    · rw [if_neg ht]
      simp only []
      generalize (if t.head? = some '+' ∨ t.head? = some '-' then t.tail else t) = ds at key
      have hU : ParseUint intSize ds = (0, some NumErr.ErrSyntax)
          ∨ ParseUint intSize ds = (2 ^ intSize - 1, some NumErr.ErrRange) := by
        unfold ParseUint
        rcases key with hnil | hbad
        · rw [if_pos hnil]
          exact Or.inl rfl
        · have hne : ds ≠ [] := by
            intro e
            rw [e] at hbad
            simp at hbad
          rw [if_neg hne]
          exact parseUintDigits_bad _ ds 0 hbad
      rcases hU with hU | hU
      · rw [hU]
        exact ⟨_, _, rfl⟩
      · rw [hU]
        have hlt := two_pow_pred_lt intSize hsize
        simp only []
        by_cases hneg : decide (t.head? = some '-') = false
        · rw [if_pos ⟨hneg, Nat.le_of_lt hlt⟩]
          exact ⟨_, _, rfl⟩
        · have hneg1 : decide (t.head? = some '-') = true := by simpa using hneg
          rw [if_neg (by simp [hneg1]), if_pos ⟨hneg1, hlt⟩]
          exact ⟨_, _, rfl⟩
  obtain ⟨v, kind, hv⟩ := hP
  exact ⟨v, kind, by simp [Atoi, hv]⟩

/-- The digits are read from left to right: in `99999999999999999999x` the number leaves
the range before the `x` is looked at, and `Atoi` reports a range error, not a syntax
error; in `9x` the `x` is reached, and the error is a syntax error. -/
theorem atoi_range_before_syntax :
    Atoi 64 "99999999999999999999x".toList
      = (9223372036854775807,
          some (Error.NumError "Atoi".toList "99999999999999999999x".toList NumErr.ErrRange))
    ∧ Atoi 64 "9x".toList
      = (0, some (Error.NumError "Atoi".toList "9x".toList NumErr.ErrSyntax)) := by
  decide

/-! ## The binder: one field -/

theorem loadField_int (intSize : Nat) (c : Config) (canSet : Bool) (k : IntKind) (i0 : ℤ)
    (name : Str) :
    c.loadField intSize canSet (Value.int k i0) name =
      if name = [] then some (Value.int k i0, none)
      else
        match c.Int intSize name with
        | (_, some err) => some (Value.int k i0, some err)
        | (i, none) =>
          if canSet = false then none
          else some (Value.int k (wrapSigned (k.bits intSize) (wrapSigned 64 i)), none) := by
  cases canSet <;> cases k <;>
    simp [Config.loadField, Value.Kind, IntKind.toKind, Config.loadFieldInt, Value.SetInt]

theorem loadField_uint (intSize : Nat) (c : Config) (canSet : Bool) (k : UintKind) (n0 : Nat)
    (name : Str) :
    c.loadField intSize canSet (Value.uint k n0) name =
      if name = [] then some (Value.uint k n0, none)
      else
        match c.Int intSize name with
        | (_, some err) => some (Value.uint k n0, some err)
        | (i, none) =>
          if canSet = false then none
          else some (Value.uint k (wrapUnsigned (k.bits intSize) (wrapUnsigned 64 i)), none) := by
  cases canSet <;> cases k <;>
    simp [Config.loadField, Value.Kind, UintKind.toKind, Config.loadFieldUint, Value.SetUint]

theorem loadField_string (intSize : Nat) (c : Config) (canSet : Bool) (s0 : Str)
    (name : Str) :
    c.loadField intSize canSet (Value.string s0) name =
      if name = [] then some (Value.string s0, none)
      else
        match c.String name with
        | (_, some err) => some (Value.string s0, some err)
        | (v, none) => if canSet = false then none else some (Value.string v, none) := by
  cases canSet <;>
    simp [Config.loadField, Value.Kind, Config.loadFieldString, Value.SetString]

/-- A field of a kind without a binding rule is rejected before its logical
name is looked at, assignable or not. -/
theorem loadField_unsupported (intSize : Nat) (c : Config) (canSet : Bool) (f : Value)
    (name : Str)
    (hi : ∀ k i, f ≠ Value.int k i) (hu : ∀ k n, f ≠ Value.uint k n)
    (hs : ∀ s, f ≠ Value.string s) :
    c.loadField intSize canSet f name = some (f, some Error.ErrUnsupportedType) := by
  cases f with
  | bool b => rfl
  | int k i => exact absurd rfl (hi k i)
  | uint k n => exact absurd rfl (hu k n)
  | string s => exact absurd rfl (hs s)
  | struct fields => rfl
  | ptr e => rfl
  | iface e => rfl
  | other k => cases k <;> rfl

/-- Binding an assignable field returns (it does not panic), and the field
afterwards holds its bound value. -/
theorem loadField_boundValue (intSize : Nat) (c : Config) (f : Value) (name : Str) :
    ∃ err, c.loadField intSize true f name = some (c.boundValue intSize name f, err) := by
  cases f with
  | int k i =>
    rw [loadField_int]
    unfold Config.boundValue
    by_cases hn : name = []
    · exact ⟨none, by simp [hn]⟩
    · rcases hI : c.Int intSize name with ⟨v, _ | e⟩
      · exact ⟨none, by simp [hn]⟩
      · exact ⟨some e, by simp [hn]⟩
  | uint k n =>
    rw [loadField_uint]
    unfold Config.boundValue
    by_cases hn : name = []
    · exact ⟨none, by simp [hn]⟩
    · rcases hI : c.Int intSize name with ⟨v, _ | e⟩
      · exact ⟨none, by simp [hn]⟩
      · exact ⟨some e, by simp [hn]⟩
  | string s =>
    rw [loadField_string]
    unfold Config.boundValue
    by_cases hn : name = []
    · exact ⟨none, by simp [hn]⟩
    · rcases hS : c.String name with ⟨v, _ | e⟩
      · exact ⟨none, by simp [hn]⟩
      · exact ⟨some e, by simp [hn]⟩
  | bool b =>
    refine ⟨some Error.ErrUnsupportedType, ?_⟩
    rw [loadField_unsupported intSize c _ _ name (by simp) (by simp) (by simp)]
    simp [Config.boundValue]
  | struct fields =>
    refine ⟨some Error.ErrUnsupportedType, ?_⟩
    rw [loadField_unsupported intSize c _ _ name (by simp) (by simp) (by simp)]
    simp [Config.boundValue]
  | ptr e =>
    refine ⟨some Error.ErrUnsupportedType, ?_⟩
    rw [loadField_unsupported intSize c _ _ name (by simp) (by simp) (by simp)]
    simp [Config.boundValue]
  | iface e =>
    refine ⟨some Error.ErrUnsupportedType, ?_⟩
    rw [loadField_unsupported intSize c _ _ name (by simp) (by simp) (by simp)]
    simp [Config.boundValue]
  | other k =>
    refine ⟨some Error.ErrUnsupportedType, ?_⟩
    rw [loadField_unsupported intSize c _ _ name (by simp) (by simp) (by simp)]
    simp [Config.boundValue]

/-- What binding a field that is not assignable returns, binding the field returns
when it is assignable. -/
theorem loadField_of_not_assignable (intSize : Nat) (c : Config) (f : Value) (name : Str)
    (r : Value × Option Error) (h : c.loadField intSize false f name = some r) :
    c.loadField intSize true f name = some r := by
  cases f with
  | int k i =>
    rw [loadField_int] at h ⊢
    by_cases hn : name = []
    · simpa [hn] using h
    · rcases hI : c.Int intSize name with ⟨v, _ | e⟩
      · simp [hn, hI] at h
      · simpa [hn, hI] using h
  | uint k n =>
    rw [loadField_uint] at h ⊢
    by_cases hn : name = []
    · simpa [hn] using h
    · rcases hI : c.Int intSize name with ⟨v, _ | e⟩
      · simp [hn, hI] at h
      · simpa [hn, hI] using h
  | string s =>
    rw [loadField_string] at h ⊢
    by_cases hn : name = []
    · simpa [hn] using h
    · rcases hS : c.String name with ⟨v, _ | e⟩
      · simp [hn, hS] at h
      · simpa [hn, hS] using h
  | bool b =>
    rw [loadField_unsupported intSize c _ _ name (by simp) (by simp) (by simp)] at h ⊢
    exact h
  | struct fields =>
    rw [loadField_unsupported intSize c _ _ name (by simp) (by simp) (by simp)] at h ⊢
    exact h
  | ptr e =>
    rw [loadField_unsupported intSize c _ _ name (by simp) (by simp) (by simp)] at h ⊢
    exact h
  | iface e =>
    rw [loadField_unsupported intSize c _ _ name (by simp) (by simp) (by simp)] at h ⊢
    exact h
  | other k =>
    rw [loadField_unsupported intSize c _ _ name (by simp) (by simp) (by simp)] at h ⊢
    exact h

/-- Whenever binding a field returns, the field afterwards holds its bound value. -/
theorem loadField_returns_bound (intSize : Nat) (c : Config) (canSet : Bool) (f f1 : Value)
    (name : Str) (err : Option Error)
    (h : c.loadField intSize canSet f name = some (f1, err)) :
    f1 = c.boundValue intSize name f := by
  have h1 : c.loadField intSize true f name = some (f1, err) := by
    cases canSet with
    | true => exact h
    | false => exact loadField_of_not_assignable intSize c f name _ h
  obtain ⟨err1, he⟩ := loadField_boundValue intSize c f name
  rw [he] at h1
  exact ((Prod.mk.inj (Option.some.inj h1)).1).symm

/-- A field whose binding returns an error keeps its value. -/
theorem loadField_error_keeps (intSize : Nat) (c : Config) (canSet : Bool) (f f1 : Value)
    (name : Str) (e : Error) (h : c.loadField intSize canSet f name = some (f1, some e)) :
    f1 = f := by
  cases f with
  | int k i =>
    rw [loadField_int] at h
    by_cases hn : name = []
    · simp [hn] at h
    · rcases hI : c.Int intSize name with ⟨v, _ | e1⟩
      · cases canSet <;> simp [hn, hI] at h
      · simp [hn, hI] at h
        exact h.1.symm
  | uint k n =>
    rw [loadField_uint] at h
    by_cases hn : name = []
    · simp [hn] at h
    · rcases hI : c.Int intSize name with ⟨v, _ | e1⟩
      · cases canSet <;> simp [hn, hI] at h
      · simp [hn, hI] at h
        exact h.1.symm
  | string s =>
    rw [loadField_string] at h
    by_cases hn : name = []
    · simp [hn] at h
    · rcases hS : c.String name with ⟨v, _ | e1⟩
      · cases canSet <;> simp [hn, hS] at h
      · simp [hn, hS] at h
        exact h.1.symm
  | bool b =>
    rw [loadField_unsupported intSize c _ _ name (by simp) (by simp) (by simp)] at h
    simp at h
    exact h.1.symm
  | struct fields =>
    rw [loadField_unsupported intSize c _ _ name (by simp) (by simp) (by simp)] at h
    simp at h
    exact h.1.symm
  | ptr e0 =>
    rw [loadField_unsupported intSize c _ _ name (by simp) (by simp) (by simp)] at h
    simp at h
    exact h.1.symm
  | iface e0 =>
    rw [loadField_unsupported intSize c _ _ name (by simp) (by simp) (by simp)] at h
    simp at h
    exact h.1.symm
  | other k =>
    rw [loadField_unsupported intSize c _ _ name (by simp) (by simp) (by simp)] at h
    simp at h
    exact h.1.symm

/-! ## The binder: a record -/

theorem fieldSucceeds_loadField (intSize : Nat) (c : Config) (x : StructField × Value)
    (h : c.fieldSucceeds intSize x = true) :
    c.loadField intSize x.1.IsExported x.2 (fieldName x.1)
        = some ((c.boundField intSize x).2, none)
    ∨ c.loadField intSize x.1.IsExported x.2 (fieldName x.1)
        = some ((c.boundField intSize x).2, some Error.ErrNotFound) := by
  unfold Config.fieldSucceeds at h
  rcases hL : c.loadField intSize x.1.IsExported x.2 (fieldName x.1) with _ | ⟨f1, err⟩
  · simp [hL] at h
  · have hb := loadField_returns_bound intSize c _ _ _ _ _ hL
    subst hb
    rw [hL] at h
    cases err with
    | none => exact Or.inl rfl
    | some e =>
      cases e with
      | ErrNotFound => exact Or.inr rfl
      | ErrUnsupportedType => simp at h
      | EOF => simp at h
      | NumError a b d => simp at h
      | Other m => simp at h

theorem loadStruct_cons_ok (intSize : Nat) (c : Config) (x : StructField × Value)
    (rest : List (StructField × Value)) (h : c.fieldSucceeds intSize x = true) :
    c.loadStruct intSize true (x :: rest) =
      match c.loadStruct intSize true rest with
      | none => none
      | some (rest1, err) => some (c.boundField intSize x :: rest1, err) := by
  obtain ⟨sf, f⟩ := x
  rcases fieldSucceeds_loadField intSize c (sf, f) h with h1 | h1
  · simp only [Config.loadStruct, Bool.true_and, h1]
    simp [Config.boundField]
  · simp only [Config.loadStruct, Bool.true_and, h1]
    simp [Config.boundField]

theorem loadStruct_cons_hard (intSize : Nat) (c : Config) (sf : StructField) (f f1 : Value)
    (rest : List (StructField × Value)) (e : Error)
    (h : c.loadField intSize sf.IsExported f (fieldName sf) = some (f1, some e))
    (he : e ≠ Error.ErrNotFound) :
    c.loadStruct intSize true ((sf, f) :: rest) = some ((sf, f) :: rest, some e) := by
  have hf := loadField_error_keeps intSize c _ f f1 (fieldName sf) e h
  subst hf
  simp [Config.loadStruct, h, he]

theorem loadStruct_append_ok (intSize : Nat) (c : Config)
    (pre rest : List (StructField × Value))
    (h : ∀ x ∈ pre, c.fieldSucceeds intSize x = true) :
    c.loadStruct intSize true (pre ++ rest) =
      match c.loadStruct intSize true rest with
      | none => none
      | some (rest1, err) => some (pre.map (c.boundField intSize) ++ rest1, err) := by
  induction pre with
  | nil =>
    simp only [List.nil_append, List.map_nil]
    cases c.loadStruct intSize true rest with
    | none => rfl
    | some r => rfl
  | cons x t ih =>
    rw [List.cons_append, loadStruct_cons_ok intSize c x _ (h x (List.mem_cons_self _ _)),
      ih (fun y hy => h y (List.mem_cons_of_mem _ hy))]
    cases c.loadStruct intSize true rest with
    | none => rfl
    | some r => rfl

theorem loadStruct_all_ok (intSize : Nat) (c : Config) (fields : List (StructField × Value))
    (h : ∀ x ∈ fields, c.fieldSucceeds intSize x = true) :
    c.loadStruct intSize true fields = some (fields.map (c.boundField intSize), none) := by
  have := loadStruct_append_ok intSize c fields [] h
  simpa [Config.loadStruct] using this

/-- A field that its own binding leaves as it is stays as it is, and where it
is, whenever binding the record returns, whatever happens to the other fields. -/
theorem loadStruct_keeps_field (intSize : Nat) (c : Config) (canAddr : Bool)
    (sf : StructField) (f : Value)
    (hkeep : c.boundValue intSize (fieldName sf) f = f)
    (pre post : List (StructField × Value)) (fields1 : List (StructField × Value))
    (err : Option Error)
    (h : c.loadStruct intSize canAddr (pre ++ (sf, f) :: post) = some (fields1, err)) :
    ∃ pre1 post1, fields1 = pre1 ++ (sf, f) :: post1 ∧ pre1.length = pre.length := by
  induction pre generalizing fields1 err with
  | nil =>
    rw [List.nil_append, Config.loadStruct] at h
    rcases hL : c.loadField intSize (canAddr && sf.IsExported) f (fieldName sf)
      with _ | ⟨f1, e1⟩
    · simp [hL] at h
    · have hb := loadField_returns_bound intSize c _ _ _ _ _ hL
      rw [hkeep] at hb
      subst hb
      simp only [hL] at h
      split_ifs at h
      · exact ⟨[], post, ((Prod.mk.inj (Option.some.inj h)).1).symm, rfl⟩
      · rcases hP : c.loadStruct intSize canAddr post with _ | ⟨post1, e2⟩
        · simp [hP] at h
        · simp only [hP] at h
          exact ⟨[], post1, ((Prod.mk.inj (Option.some.inj h)).1).symm, rfl⟩
  | cons y t ih =>
    obtain ⟨sy, fy⟩ := y
    rw [List.cons_append, Config.loadStruct] at h
    rcases hL : c.loadField intSize (canAddr && sy.IsExported) fy (fieldName sy)
      with _ | ⟨f1, e1⟩
    · simp [hL] at h
    · simp only [hL] at h
      split_ifs at h
      · exact ⟨(sy, f1) :: t, post, ((Prod.mk.inj (Option.some.inj h)).1).symm, rfl⟩
      · rcases hP : c.loadStruct intSize canAddr (t ++ (sf, f) :: post) with _ | ⟨r1, e2⟩
        · simp [hP] at h
        · simp only [hP] at h
          obtain ⟨pre1, post1, h1, hlen⟩ := ih r1 e2 hP
          refine ⟨(sy, f1) :: pre1, post1, ?_, by simp [hlen]⟩
          rw [← (Prod.mk.inj (Option.some.inj h)).1, h1]
          rfl

theorem load_reflectValue (intSize : Nat) (c : Config) (e : Value) :
    c.Load intSize (Iface.reflectValue e)
      = some (Iface.reflectValue e, some Error.ErrUnsupportedType) := by
  rw [Config.Load]
  simp [Iface.Kind]

theorem load_recordPtr (intSize : Nat) (c : Config) (fields : List (StructField × Value)) :
    c.Load intSize (recordPtr fields) =
      match c.loadStruct intSize true fields with
      | none => none
      | some (fields1, err) => some (recordPtr fields1, err) := by
  rw [Config.Load]
  simp only [recordPtr, Iface.Kind, Value.Kind, Iface.Elem, Iface.setElem, Iface.elemCanAddr]
  simp

theorem wrapSigned_of_range (w : Nat) (x : ℤ) (hw : 0 < w)
    (hlo : -(2 ^ (w - 1) : ℤ) ≤ x) (hhi : x < 2 ^ (w - 1)) : wrapSigned w x = x := by
  have hpow : (2 : ℤ) ^ w = 2 * 2 ^ (w - 1) := by
    obtain ⟨v, rfl⟩ : ∃ v, w = v + 1 := ⟨w - 1, by omega⟩
    simp [pow_succ, mul_comm]
  unfold wrapSigned
  rw [hpow, Int.emod_eq_of_lt (by omega) (by omega)]
  omega

/-! ## The line store: properties -/

/-- C1: for every store and every line `n=v` in which `n` and `v` hold no newline, `n` holds no
`'='`, and the trimmed `n` is non-empty and does not start with `'#'`, `LoadString` of the
line returns without error and `String` of the trimmed `n` then returns the trimmed `v`
with no error; `v` may hold further `'='` characters. -/
theorem loadString_valid_line (c : Config) (n v : Str)
    (hn : '\n' ∉ n) (hv : '\n' ∉ v) (hsep : '=' ∉ n)
    (hne : TrimSpace n ≠ []) (hcomment : (TrimSpace n).head? ≠ some '#') :
    ∃ c1, c.LoadString (n ++ '=' :: v) = Outcome.ret (c1, none)
      ∧ c1.String (TrimSpace n) = (TrimSpace v, none) := by
  have hline : '\n' ∉ n ++ '=' :: v := by
    intro h
    rcases List.mem_append.mp h with h1 | h1
    · exact hn h1
    · rcases List.mem_cons.mp h1 with h2 | h2
      · exact absurd h2 (by decide)
      · exact hv h2
  refine ⟨_, LoadString_eq c _, ?_⟩
  apply string_of_values _ _ rfl
  rw [textLines_of_not_mem _ hline]
  simp only [List.foldl_cons, List.foldl_nil, applyLine, parseLine_sep n v hsep]
  rw [if_pos ⟨hne, hcomment⟩]
  simp

/-- Witness of C1 at the line ` name = piyo=x `, loaded into the zero store. -/
theorem loadString_valid_line_witness :
    ('\n' ∉ " name ".toList ∧ '\n' ∉ " piyo=x ".toList ∧ '=' ∉ " name ".toList
      ∧ TrimSpace " name ".toList ≠ [] ∧ (TrimSpace " name ".toList).head? ≠ some '#')
    ∧ ∃ c1, (Config.mk none none).LoadString (" name ".toList ++ '=' :: " piyo=x ".toList)
        = Outcome.ret (c1, none)
      ∧ c1.String "name".toList = ("piyo=x".toList, none) :=
  ⟨by decide,
    loadString_valid_line (Config.mk none none) " name ".toList " piyo=x ".toList
      (by decide) (by decide) (by decide) (by decide) (by decide)⟩

/-- C2: `String` returns the entry of `Values` when the name is a key of `Values` (whatever
`Defaults` holds), otherwise the entry of `Defaults` when the name is a key of `Defaults`,
and otherwise the empty string with `ErrNotFound`. -/
theorem string_prefers_values (c : Config) (name : Str) :
    (∀ v, c.Values.get name = some v → c.String name = (v, none))
    ∧ (c.Values.get name = none →
        ∀ v, c.Defaults.get name = some v → c.String name = (v, none))
    ∧ (c.Values.get name = none → c.Defaults.get name = none →
        c.String name = ([], some Error.ErrNotFound)) := by
  refine ⟨?_, ?_, ?_⟩
  · intro v h
    simp [Config.String, h]
  · intro h v hd
    simp [Config.String, h, hd]
  · intro h hd
    simp [Config.String, h, hd]

/-- Witness of C2: the name `k` read from a store whose `Values` and `Defaults` both hold it,
from a store whose `Defaults` alone holds it, and from the zero store. -/
theorem string_prefers_values_witness :
    (Config.mk (some (fun x => if x = ['k'] then some ['v'] else none))
        (some (fun x => if x = ['k'] then some ['d'] else none))).String ['k'] = (['v'], none)
    ∧ (Config.mk (some (fun _ => none))
        (some (fun x => if x = ['k'] then some ['d'] else none))).String ['k'] = (['d'], none)
    ∧ (Config.mk none none).String ['k'] = ([], some Error.ErrNotFound) :=
  ⟨(string_prefers_values
      (Config.mk (some (fun x => if x = ['k'] then some ['v'] else none))
        (some (fun x => if x = ['k'] then some ['d'] else none))) ['k']).1 ['v'] (by decide),
    (string_prefers_values
      (Config.mk (some (fun _ => none))
        (some (fun x => if x = ['k'] then some ['d'] else none))) ['k']).2.1
      (by decide) ['d'] (by decide),
    (string_prefers_values (Config.mk none none) ['k']).2.2 (by decide) (by decide)⟩

theorem setLine_ignored (c : Config) (line : Str)
    (h : TrimSpace line = [] ∨ (TrimSpace line).head? = some '#'
      ∨ '=' ∉ TrimSpace line ∨ (TrimSpace line).head? = some '=') :
    c.setLine line = some c := by
  simp only [Config.setLine]
  by_cases h1 : TrimSpace line = []
  · rw [if_pos h1]
  · rw [if_neg h1]
    obtain ⟨x, t, hxt⟩ := List.exists_cons_of_ne_nil h1
    by_cases h2 : HasPrefix (TrimSpace line) ['#'] = true
    · rw [if_pos h2]
    · rw [if_neg h2]
      have hI : Index (TrimSpace line) Separator ≤ 0 := by
        rcases h with h | h | h | h
        · exact absurd h h1
        · exfalso
          apply h2
          rw [hxt] at h ⊢
          simp only [List.head?_cons, Option.some.injEq] at h
          simp [HasPrefix, List.isPrefixOf, h]
        · rw [Index, Separator, indexFrom_singleton_not_mem _ _ _ h]
          decide
        · rw [hxt] at h ⊢
          simp only [List.head?_cons, Option.some.injEq] at h
          simp [Index, Separator, indexFrom, List.isPrefixOf, h]
      rw [if_pos hI]

theorem applyLine_ignored (m : Str → Option Str) (line : Str)
    (h : TrimSpace line = [] ∨ (TrimSpace line).head? = some '#'
      ∨ '=' ∉ TrimSpace line ∨ (TrimSpace line).head? = some '=') :
    applyLine m line = m := by
  have h1 := setLine_alloc (Config.mk (some m) none) m rfl line
  rw [setLine_ignored _ line h] at h1
  simpa using h1.symm

theorem trimSpace_trimSpace (s : Str) : TrimSpace (TrimSpace s) = TrimSpace s := by
  conv_lhs => rw [TrimSpace.eq_1 s]
  rw [trimSpace_rdropWhile, trimSpace_dropWhile]

theorem trimSpace_blank_append (w s : Str) (hw : ∀ x ∈ w, IsSpace x = true) :
    TrimSpace (w ++ s) = TrimSpace s := by
  unfold TrimSpace
  rw [List.dropWhile_append_of_pos hw]

theorem trimSpace_of_blank (w : Str) (hw : ∀ x ∈ w, IsSpace x = true) : TrimSpace w = [] :=
  (trimSpace_eq_nil_iff w).mpr (List.dropWhile_eq_nil_iff.mpr hw)

theorem blank_append_trimSpace_append_blank (line : Str) :
    ∃ w1 w2, line = w1 ++ TrimSpace line ++ w2
      ∧ (∀ x ∈ w1, IsSpace x = true) ∧ (∀ x ∈ w2, IsSpace x = true) := by
  refine ⟨line.takeWhile IsSpace, (line.dropWhile IsSpace).rtakeWhile IsSpace, ?_,
    fun x hx => List.mem_takeWhile_imp hx, fun x hx => List.mem_rtakeWhile_imp hx⟩
  have hr : ∀ l : Str, l = l.rdropWhile IsSpace ++ l.rtakeWhile IsSpace := by
    intro l
    have := congrArg List.reverse (List.takeWhile_append_dropWhile IsSpace l.reverse)
    simp only [List.reverse_append, List.reverse_reverse] at this
    exact this.symm
  rw [List.append_assoc, TrimSpace, ← hr, List.takeWhile_append_dropWhile]

theorem mem_of_mem_textLines (s l : Str) (x : Char) (hl : l ∈ textLines s) (hx : x ∈ l) :
    x ∈ s := by
  induction s generalizing l with
  | nil =>
    simp only [textLines, List.mem_singleton] at hl
    rw [hl] at hx
    exact hx
  | cons ch t ih =>
    simp only [textLines] at hl
    split_ifs at hl with hc
    · rcases List.mem_cons.mp hl with h | h
      · rw [h] at hx
        simp at hx
      · exact List.mem_cons_of_mem _ (ih l h hx)
    · cases ht : textLines t with
      | nil => exact absurd ht (textLines_ne_nil t)
      | cons l0 ls =>
        rw [ht] at hl ih
        simp only [List.mem_cons] at hl
        rcases hl with h | h
        · rw [h] at hx
          rcases List.mem_cons.mp hx with h2 | h2
          · rw [h2]
            exact List.mem_cons_self _ _
          · exact List.mem_cons_of_mem _ (ih l0 (List.mem_cons_self _ _) h2)
        · exact List.mem_cons_of_mem _ (ih l (List.mem_cons_of_mem _ h) hx)

/-- The lines of a text made of white space, a newline-free core and white
space trim to nothing or to what the core trims to. -/
theorem textLines_around_core (w1 core w2 : Str) (h1 : ∀ x ∈ w1, IsSpace x = true)
    (hcore : '\n' ∉ core) (h2 : ∀ x ∈ w2, IsSpace x = true) :
    ∀ l ∈ textLines (w1 ++ core ++ w2), TrimSpace l = [] ∨ TrimSpace l = TrimSpace core := by
  induction w1 with
  | nil =>
    intro l hl
    rw [List.nil_append] at hl
    by_cases hn : '\n' ∈ w2
    · obtain ⟨u, r, hw2, hu⟩ := List.eq_append_cons_of_mem hn
      have hcu : '\n' ∉ core ++ u := by
        intro hm
        rcases List.mem_append.mp hm with h | h
        · exact hcore h
        · exact hu h
      have hub : ∀ x ∈ u, IsSpace x = true := fun x hx => h2 x (by rw [hw2]; simp [hx])
      have hrb : ∀ x ∈ r, IsSpace x = true := fun x hx => h2 x (by rw [hw2]; simp [hx])
      rw [hw2, ← List.append_assoc, textLines_append _ _ hcu] at hl
      rcases List.mem_cons.mp hl with h | h
      · right
        rw [h, trimSpace_append_blank core u hub]
      · left
        exact trimSpace_of_blank l (fun x hx => hrb x (mem_of_mem_textLines r l x h hx))
    · have hcw : '\n' ∉ core ++ w2 := by
        intro hm
        rcases List.mem_append.mp hm with h | h
        · exact hcore h
        · exact hn h
      rw [textLines_of_not_mem _ hcw] at hl
      right
      rw [List.mem_singleton.mp hl, trimSpace_append_blank core w2 h2]
  | cons x t ih =>
    intro l hl
    have hx : IsSpace x = true := h1 x (List.mem_cons_self _ _)
    have ht : ∀ y ∈ t, IsSpace y = true := fun y hy => h1 y (List.mem_cons_of_mem _ hy)
    have ih1 := ih ht
    rw [List.cons_append, List.cons_append, textLines] at hl
    split_ifs at hl with hc
    · rcases List.mem_cons.mp hl with h | h
      · left
        rw [h]
        rfl
      · exact ih1 l h
    · cases hts : textLines (t ++ core ++ w2) with
      | nil => exact absurd hts (textLines_ne_nil _)
      | cons l0 ls =>
        rw [hts] at hl ih1
        simp only [List.mem_cons] at hl
        rcases hl with h | h
        · have := ih1 l0 (List.mem_cons_self _ _)
          rw [h]
          have hc2 : TrimSpace (x :: l0) = TrimSpace l0 :=
            trimSpace_blank_append [x] l0 (by simpa using hx)
          rw [hc2]
          exact this
        · exact ih1 l (List.mem_cons_of_mem _ h)

theorem foldl_applyLine_ignored (ls : List Str)
    (h : ∀ l ∈ ls, ∀ m : Str → Option Str, applyLine m l = m) (m : Str → Option Str) :
    ls.foldl applyLine m = m := by
  induction ls with
  | nil => rfl
  | cons l t ih =>
    rw [List.foldl_cons, h l (List.mem_cons_self _ _) m]
    exact ih (fun l1 h1 => h l1 (List.mem_cons_of_mem _ h1))

/-- C3: a line that, once trimmed, is empty, starts with `'#'`, holds no `'='`, or starts
with `'='` is ignored: `setLine` returns (it does not panic, even on a nil `Values`) and
leaves the store as it was; and `LoadString` of that single line, whose trimmed text holds
no newline, returns without error and leaves the result of `String` unchanged for every
name. -/
theorem ignored_line_keeps_store (c : Config) (line : Str)
    (h : TrimSpace line = [] ∨ (TrimSpace line).head? = some '#'
      ∨ '=' ∉ TrimSpace line ∨ (TrimSpace line).head? = some '=') :
    c.setLine line = some c
    ∧ ('\n' ∉ TrimSpace line →
        ∃ c1, c.LoadString line = Outcome.ret (c1, none) ∧ ∀ k, c1.String k = c.String k) := by
  refine ⟨setLine_ignored c line h, fun hnl => ⟨_, LoadString_eq c line, fun k => ?_⟩⟩
  obtain ⟨w1, w2, hline, hw1, hw2⟩ := blank_append_trimSpace_append_blank line
  have hshape := textLines_around_core w1 (TrimSpace line) w2 hw1 hnl hw2
  rw [← hline, trimSpace_trimSpace] at hshape
  have hkeep : ∀ l ∈ textLines line, ∀ m : Str → Option Str, applyLine m l = m := by
    intro l hl m
    apply applyLine_ignored
    rcases hshape l hl with h0 | h0
    · exact Or.inl h0
    · rw [h0]
      exact h
  rw [foldl_applyLine_ignored _ hkeep]
  obtain ⟨vals, defs⟩ := c
  cases vals <;> simp [Config.String, GoMap.get, GoMap.alloc]

/-- Witness of C3 at the comment line `  # name=piyo` with its newline, on a store that
holds `k`. -/
theorem ignored_line_keeps_store_witness :
    ((TrimSpace "  # name=piyo\n".toList = []
        ∨ (TrimSpace "  # name=piyo\n".toList).head? = some '#'
        ∨ '=' ∉ TrimSpace "  # name=piyo\n".toList
        ∨ (TrimSpace "  # name=piyo\n".toList).head? = some '=')
      ∧ '\n' ∉ TrimSpace "  # name=piyo\n".toList)
    ∧ (Config.mk (some (fun x => if x = ['k'] then some ['v'] else none)) none).setLine
        "  # name=piyo\n".toList
      = some (Config.mk (some (fun x => if x = ['k'] then some ['v'] else none)) none)
    ∧ ∃ c1, (Config.mk (some (fun x => if x = ['k'] then some ['v'] else none)) none).LoadString
          "  # name=piyo\n".toList = Outcome.ret (c1, none)
        ∧ ∀ k, c1.String k
          = (Config.mk (some (fun x => if x = ['k'] then some ['v'] else none)) none).String k :=
  ⟨⟨by decide, by decide⟩,
    (ignored_line_keeps_store
      (Config.mk (some (fun x => if x = ['k'] then some ['v'] else none)) none)
      "  # name=piyo\n".toList (by decide)).1,
    (ignored_line_keeps_store
      (Config.mk (some (fun x => if x = ['k'] then some ['v'] else none)) none)
      "  # name=piyo\n".toList (by decide)).2 (by decide)⟩

/-- C4: last write wins. When the lines of the texts loaded in succession, taken in load
order, hold a valid line for the name `n` with trimmed value `v` after which no valid line
for `n` follows, every load returns without error and `String n` afterwards returns `v`,
whatever `Values` and `Defaults` held before. -/
theorem last_write_wins (c : Config) (texts : List Str) (n v : Str)
    (before : List Str) (l : Str) (after : List Str)
    (hlines : texts.flatMap textLines = before ++ l :: after)
    (hl : parseLine l = some (n, v))
    (hafter : ∀ l1 ∈ after, (parseLine l1).map Prod.fst ≠ some n) :
    ∃ c1, c.LoadStrings texts = some c1 ∧ c1.String n = (v, none) := by
  cases texts with
  | nil => simp at hlines
  | cons t ts =>
    refine ⟨_, LoadStrings_cons t ts c, ?_⟩
    apply string_of_values _ _ rfl
    rw [hlines, List.foldl_append, List.foldl_cons, foldl_applyLine_of_other n after hafter]
    simp [applyLine, hl]

/-- Witness of C4: two texts, the name `name` set in each, a default and an earlier value
already in the store. -/
theorem last_write_wins_witness :
    (["name=a\nage=1".toList, "#x\nname = b\nage=2".toList].flatMap textLines
        = ["name=a".toList, "age=1".toList, "#x".toList] ++ "name = b".toList :: ["age=2".toList]
      ∧ parseLine "name = b".toList = some ("name".toList, "b".toList)
      ∧ ∀ l1 ∈ ["age=2".toList], (parseLine l1).map Prod.fst ≠ some "name".toList)
    ∧ ∃ c1,
        (Config.mk (some (fun x => if x = "name".toList then some "old".toList else none))
          (some (fun x => if x = "name".toList then some "dflt".toList else none))).LoadStrings
          ["name=a\nage=1".toList, "#x\nname = b\nage=2".toList] = some c1
        ∧ c1.String "name".toList = ("b".toList, none) :=
  ⟨⟨by decide, by decide, by decide⟩,
    last_write_wins _ ["name=a\nage=1".toList, "#x\nname = b\nage=2".toList]
      "name".toList "b".toList ["name=a".toList, "age=1".toList, "#x".toList]
      "name = b".toList ["age=2".toList] (by decide) (by decide) (by decide)⟩

/-- C5: for an `int` of 2 to 64 bits, `Int` fails with `ErrNotFound` when the name is in
neither map; it returns 0 with a `strconv` error of function `Atoi` on the stored text (a
syntax error, or a range error when the digits before the first bad character already
overflow), which is not `ErrNotFound`, when the stored text is not a base-10 signed integer;
and it returns `k` with no error when the stored text is the decimal rendering of an integer
`k` of the range of `int`. -/
theorem int_results (intSize : Nat) (c : Config) (name : Str)
    (hsize : 2 ≤ intSize ∧ intSize ≤ 64) :
    (c.Values.get name = none → c.Defaults.get name = none →
      c.Int intSize name = (0, some Error.ErrNotFound))
    ∧ (∀ t, c.String name = (t, none) → isDecimalInt t = false →
        ∃ kind, c.Int intSize name = (0, some (Error.NumError "Atoi".toList t kind))
          ∧ Error.NumError "Atoi".toList t kind ≠ Error.ErrNotFound)
    ∧ (∀ k : ℤ, -(2 ^ (intSize - 1) : ℤ) ≤ k → k < 2 ^ (intSize - 1) →
        c.String name = (Itoa k, none) → c.Int intSize name = (k, none)) := by
  refine ⟨?_, ?_, ?_⟩
  · intro hv hd
    simp [Config.Int, Config.String, hv, hd]
  · intro t ht hbad
    obtain ⟨v, kind, hA⟩ := atoi_malformed intSize t hsize.1 hbad
    refine ⟨kind, ?_, by simp⟩
    simp [Config.Int, ht, hA]
  · intro k hlo hhi ht
    simp [Config.Int, ht, atoi_itoa intSize k (by omega) hsize.2 hlo hhi]

/-- Witness of C5: the store of `name=piyo`, `age=28`, read at `zzz`, `name` and `age` with
a 64-bit `int`. -/
theorem int_results_witness :
    (2 ≤ 64 ∧ 64 ≤ 64)
    ∧ (Config.mk (some (fun x => if x = "name".toList then some "piyo".toList
        else if x = "age".toList then some "28".toList else none)) none).Int 64 "zzz".toList
      = (0, some Error.ErrNotFound)
    ∧ (∃ kind, (Config.mk (some (fun x => if x = "name".toList then some "piyo".toList
        else if x = "age".toList then some "28".toList else none)) none).Int 64 "name".toList
      = (0, some (Error.NumError "Atoi".toList "piyo".toList kind))
      ∧ Error.NumError "Atoi".toList "piyo".toList kind ≠ Error.ErrNotFound)
    ∧ (Config.mk (some (fun x => if x = "name".toList then some "piyo".toList
        else if x = "age".toList then some "28".toList else none)) none).Int 64 "age".toList
      = (28, none) :=
  ⟨by decide,
    (int_results 64 _ "zzz".toList (by decide)).1 (by decide) (by decide),
    (int_results 64 _ "name".toList (by decide)).2.1 "piyo".toList (by decide) (by decide),
    (int_results 64 _ "age".toList (by decide)).2.2 28 (by decide) (by decide) (by decide)⟩

/-! ## The binder: properties -/

theorem int_of_malformed (intSize : Nat) (c : Config) (name t : Str) (e : Error)
    (ht : c.String name = (t, none)) (hbad : (Atoi intSize t).2 = some e) :
    c.Int intSize name = (0, some e) := by
  rcases hA : Atoi intSize t with ⟨i, err⟩
  rw [hA] at hbad
  simp only at hbad
  subst hbad
  simp [Config.Int, ht, hA]

theorem int_of_rendering (intSize : Nat) (c : Config) (name : Str) (k : ℤ)
    (hpos : 0 < intSize) (h64 : intSize ≤ 64)
    (hk : c.String name = (Itoa k, none))
    (hlo : -(2 ^ (intSize - 1) : ℤ) ≤ k) (hhi : k < 2 ^ (intSize - 1)) :
    c.Int intSize name = (k, none) := by
  simp [Config.Int, hk, atoi_itoa intSize k hpos h64 hlo hhi]

/-- Counterexample to C6 as stated, in two records. A record with a `float64` field `Ratio`
before the text field `Name` and the `int` field `Age`: both names are in the store, yet
`Load` returns `ErrUnsupportedType` and leaves `Name` and `Age` unbound. And a record
`name string; age int`, whose fields are not exported: both names are in the store, and
`Load` panics in `SetString`. -/
theorem bind_text_and_int_counterexample :
    (nameAgeStore.String "Name".toList = ("piyo".toList, none)
    ∧ nameAgeStore.String "Age".toList = (Itoa 28, none)
    ∧ nameAgeStore.Load 64 (recordPtr
        [(⟨"Ratio".toList, [], false⟩, Value.other OtherKind.Float64),
         (⟨"Name".toList, [], false⟩, Value.string []),
         (⟨"Age".toList, [], false⟩, Value.int IntKind.Int 0)])
      = some (recordPtr
        [(⟨"Ratio".toList, [], false⟩, Value.other OtherKind.Float64),
         (⟨"Name".toList, [], false⟩, Value.string []),
         (⟨"Age".toList, [], false⟩, Value.int IntKind.Int 0)],
        some Error.ErrUnsupportedType))
    ∧ (lowerNameAgeStore.String "name".toList = ("piyo".toList, none)
    ∧ lowerNameAgeStore.String "age".toList = (Itoa 28, none)
    ∧ lowerNameAgeStore.Load 64 (recordPtr
        [(⟨"name".toList, [], false⟩, Value.string []),
         (⟨"age".toList, [], false⟩, Value.int IntKind.Int 0)])
      = none) := by
  refine ⟨⟨by decide, by decide, ?_⟩, ⟨by decide, by decide, ?_⟩⟩
  · rw [load_recordPtr]
    rfl
  · rw [load_recordPtr]
    rfl

/-- C6, amended: take a record with a text field and an `int` field, both exported, whose
logical names are not empty and are in the store, the text of the second being the decimal
rendering of an integer `k` of the range of `int`; if binding no other field panics or fails
with an error other than `ErrNotFound`, `Load` on a pointer to the record returns no error
and leaves the text field equal to the stored text and the `int` field equal to `k`. -/
theorem bind_text_and_int (intSize : Nat) (c : Config) (fields : List (StructField × Value))
    (a b : Nat) (sfN sfM : StructField) (s0 : Str) (i0 : ℤ) (v : Str) (k : ℤ)
    (hsize : 0 < intSize ∧ intSize ≤ 64)
    (ha : fields[a]? = some (sfN, Value.string s0))
    (hb : fields[b]? = some (sfM, Value.int IntKind.Int i0))
    (hexp : sfN.IsExported = true ∧ sfM.IsExported = true)
    (hN : fieldName sfN ≠ []) (hM : fieldName sfM ≠ [])
    (hv : c.String (fieldName sfN) = (v, none))
    (hk : c.String (fieldName sfM) = (Itoa k, none))
    (hlo : -(2 ^ (intSize - 1) : ℤ) ≤ k) (hhi : k < 2 ^ (intSize - 1))
    (hothers : ∀ j x, fields[j]? = some x → j ≠ a → j ≠ b →
      c.fieldSucceeds intSize x = true) :
    ∃ fields1, c.Load intSize (recordPtr fields) = some (recordPtr fields1, none)
      ∧ fields1[a]? = some (sfN, Value.string v)
      ∧ fields1[b]? = some (sfM, Value.int IntKind.Int k) := by
  have hInt := int_of_rendering intSize c (fieldName sfM) k hsize.1 hsize.2 hk hlo hhi
  have hpow : (2 : ℤ) ^ (intSize - 1) ≤ 2 ^ (64 - 1) :=
    pow_le_pow_right₀ (by norm_num) (by omega)
  have hw64 : wrapSigned 64 k = k := wrapSigned_of_range 64 k (by norm_num) (by omega) (by omega)
  have hwk : wrapSigned intSize (wrapSigned 64 k) = k := by
    rw [hw64]
    exact wrapSigned_of_range intSize k hsize.1 hlo hhi
  have hbN : c.boundField intSize (sfN, Value.string s0) = (sfN, Value.string v) := by
    simp [Config.boundField, Config.boundValue, hN, hv]
  have hbM : c.boundField intSize (sfM, Value.int IntKind.Int i0)
      = (sfM, Value.int IntKind.Int k) := by
    simp [Config.boundField, Config.boundValue, hM, hInt, IntKind.bits, hwk]
  have hall : ∀ x ∈ fields, c.fieldSucceeds intSize x = true := by
    intro x hx
    obtain ⟨j, hj⟩ := List.getElem?_of_mem hx
    by_cases hja : j = a
    · rw [hja, ha] at hj
      rw [← Option.some.inj hj]
      simp [Config.fieldSucceeds, loadField_string, hN, hv, hexp.1]
    · by_cases hjb : j = b
      · rw [hjb, hb] at hj
        rw [← Option.some.inj hj]
        simp [Config.fieldSucceeds, loadField_int, hM, hInt, hexp.2]
      · exact hothers j x hj hja hjb
  refine ⟨fields.map (c.boundField intSize), ?_, ?_, ?_⟩
  · rw [load_recordPtr, loadStruct_all_ok intSize c fields hall]
  · rw [List.getElem?_map, ha, Option.map_some', hbN]
  · rw [List.getElem?_map, hb, Option.map_some', hbM]

/-- Witness of the amended C6: the record `person` with a further text field `City`
that the store does not hold, bound from the store of `Name=piyo`, `Age=28`. -/
theorem bind_text_and_int_witness :
    ∃ fields1,
      nameAgeStore.Load 64 (recordPtr
        [(⟨"Name".toList, [], false⟩, Value.string []),
         (⟨"Age".toList, [], false⟩, Value.int IntKind.Int 0),
         (⟨"City".toList, [], false⟩, Value.string [])])
        = some (recordPtr fields1, none)
      ∧ fields1[0]? = some (⟨"Name".toList, [], false⟩, Value.string "piyo".toList)
      ∧ fields1[1]? = some (⟨"Age".toList, [], false⟩, Value.int IntKind.Int 28) :=
  bind_text_and_int 64 nameAgeStore
    [(⟨"Name".toList, [], false⟩, Value.string []),
     (⟨"Age".toList, [], false⟩, Value.int IntKind.Int 0),
     (⟨"City".toList, [], false⟩, Value.string [])]
    0 1 ⟨"Name".toList, [], false⟩ ⟨"Age".toList, [], false⟩ [] 0 "piyo".toList 28
    (by decide) rfl rfl (by decide) (by decide) (by decide) (by decide) (by decide)
    (by decide) (by decide)
    (by
      intro j x hj h0 h1
      match j, hj, h0, h1 with
      | 0, _, h0, _ => exact absurd rfl h0
      | 1, _, _, h1 => exact absurd rfl h1
      | 2, hj, _, _ =>
        rw [← Option.some.inj hj]
        rfl
      | n + 3, hj, _, _ => simp at hj)

theorem boundValue_absent_int (intSize : Nat) (c : Config) (name : Str) (f : Value)
    (hf : (∃ k i, f = Value.int k i) ∨ (∃ k n, f = Value.uint k n))
    (hv : c.Values.get name = none) (hd : c.Defaults.get name = none) :
    c.boundValue intSize name f = f := by
  have hI : c.Int intSize name = (0, some Error.ErrNotFound) := by
    simp [Config.Int, Config.String, hv, hd]
  rcases hf with ⟨k, i, rfl⟩ | ⟨k, n, rfl⟩ <;>
    · unfold Config.boundValue
      split_ifs
      · rfl
      · simp [hI]

/-- C7: an integer field whose logical name is in neither `Values` nor `Defaults` holds,
whenever `Load` returns, what it held before (zero, in a zero-initialised record), at its
place in the record and whatever the other fields do; binding it never panics, exported or
not. When binding reaches it (no earlier field panics or fails with an error other than
`ErrNotFound`), binding goes on with the next field: the later fields end as binding them
ends, with the error that binding them returns. And when no other field at all panics or
fails with an error other than `ErrNotFound`, `Load` returns no error, every other field
holding its bound value. -/
theorem absent_int_field_stays (intSize : Nat) (c : Config) (sf : StructField) (f : Value)
    (pre post : List (StructField × Value))
    (hf : (∃ k, f = Value.int k 0) ∨ (∃ k, f = Value.uint k 0))
    (hv : c.Values.get (fieldName sf) = none) (hd : c.Defaults.get (fieldName sf) = none) :
    (∀ st1 err, c.Load intSize (recordPtr (pre ++ (sf, f) :: post)) = some (st1, err) →
      ∃ pre1 post1, st1 = recordPtr (pre1 ++ (sf, f) :: post1) ∧ pre1.length = pre.length)
    ∧ ((∀ x ∈ pre, c.fieldSucceeds intSize x = true) →
        ∀ post1 err, c.loadStruct intSize true post = some (post1, err) →
          c.Load intSize (recordPtr (pre ++ (sf, f) :: post))
            = some (recordPtr (pre.map (c.boundField intSize) ++ (sf, f) :: post1), err))
    ∧ ((∀ x ∈ pre ++ post, c.fieldSucceeds intSize x = true) →
        c.Load intSize (recordPtr (pre ++ (sf, f) :: post))
          = some (recordPtr (pre.map (c.boundField intSize) ++ (sf, f)
              :: post.map (c.boundField intSize)), none)) := by
  have hf1 : (∃ k i, f = Value.int k i) ∨ (∃ k n, f = Value.uint k n) := by
    rcases hf with ⟨k, rfl⟩ | ⟨k, rfl⟩
    · exact Or.inl ⟨k, 0, rfl⟩
    · exact Or.inr ⟨k, 0, rfl⟩
  have hkeep := boundValue_absent_int intSize c (fieldName sf) f hf1 hv hd
  have hself : c.fieldSucceeds intSize (sf, f) = true := by
    have hI : c.Int intSize (fieldName sf) = (0, some Error.ErrNotFound) := by
      simp [Config.Int, Config.String, hv, hd]
    rcases hf1 with ⟨k, i, rfl⟩ | ⟨k, n, rfl⟩
    · by_cases hn : fieldName sf = [] <;>
        simp [Config.fieldSucceeds, loadField_int, hn, hI]
    · by_cases hn : fieldName sf = [] <;>
        simp [Config.fieldSucceeds, loadField_uint, hn, hI]
  have hbound : c.boundField intSize (sf, f) = (sf, f) := by
    simp [Config.boundField, hkeep]
  refine ⟨?_, ?_, ?_⟩
  · intro st1 err h
    rw [load_recordPtr] at h
    rcases hL : c.loadStruct intSize true (pre ++ (sf, f) :: post) with _ | ⟨fields1, e1⟩
    · simp [hL] at h
    · simp only [hL] at h
      obtain ⟨pre1, post1, h1, hlen⟩ :=
        loadStruct_keeps_field intSize c true sf f hkeep pre post fields1 e1 hL
      refine ⟨pre1, post1, ?_, hlen⟩
      rw [← (Prod.mk.inj (Option.some.inj h)).1, h1]
  · intro hpre post1 err hpost
    rw [load_recordPtr, loadStruct_append_ok intSize c pre _ hpre,
      loadStruct_cons_ok intSize c (sf, f) post hself, hpost, hbound]
  · intro hall
    have hall2 : ∀ x ∈ pre ++ (sf, f) :: post, c.fieldSucceeds intSize x = true := by
      intro x hx
      rcases List.mem_append.mp hx with h | h
      · exact hall x (List.mem_append_left _ h)
      · rcases List.mem_cons.mp h with h | h
        · rw [h]
          exact hself
        · exact hall x (List.mem_append_right _ h)
    rw [load_recordPtr, loadStruct_all_ok intSize c _ hall2]
    simp [hbound]

/-- Witness of C7: the zero record `Name string; Age int; Size uint8` bound from a store that
holds `Name` only. -/
theorem absent_int_field_stays_witness :
    (Config.mk (some (fun x => if x = "Name".toList then some "piyo".toList else none))
        none).Load 64 (recordPtr
        ([(⟨"Name".toList, [], false⟩, Value.string [])]
          ++ (⟨"Age".toList, [], false⟩, Value.int IntKind.Int 0)
          :: [(⟨"Size".toList, [], false⟩, Value.uint UintKind.Uint8 0)]))
    = some (recordPtr
        ([(⟨"Name".toList, [], false⟩, Value.string "piyo".toList)]
          ++ (⟨"Age".toList, [], false⟩, Value.int IntKind.Int 0)
          :: [(⟨"Size".toList, [], false⟩, Value.uint UintKind.Uint8 0)]), none) :=
  (absent_int_field_stays 64
    (Config.mk (some (fun x => if x = "Name".toList then some "piyo".toList else none)) none)
    ⟨"Age".toList, [], false⟩ (Value.int IntKind.Int 0)
    [(⟨"Name".toList, [], false⟩, Value.string [])]
    [(⟨"Size".toList, [], false⟩, Value.uint UintKind.Uint8 0)]
    (Or.inl ⟨IntKind.Int, rfl⟩) (by decide) (by decide)).2.2 (by decide)

/-- C8: when binding reaches an integer field whose logical name is not empty and whose
stored text `strconv.Atoi` rejects with error `e`, every earlier field having bound (without
a panic) with no error or `ErrNotFound`, `Load` returns exactly `e`; the earlier fields hold
their bound values, and that field, exported or not, and every later field are as they
were. -/
theorem malformed_int_stops_binding (intSize : Nat) (c : Config) (sf : StructField)
    (f : Value) (pre post : List (StructField × Value)) (t : Str) (e : Error)
    (hpre : ∀ x ∈ pre, c.fieldSucceeds intSize x = true)
    (hf : (∃ k i, f = Value.int k i) ∨ (∃ k n, f = Value.uint k n))
    (hname : fieldName sf ≠ [])
    (ht : c.String (fieldName sf) = (t, none))
    (hbad : (Atoi intSize t).2 = some e) :
    c.Load intSize (recordPtr (pre ++ (sf, f) :: post))
      = some (recordPtr (pre.map (c.boundField intSize) ++ (sf, f) :: post), some e) := by
  have hI := int_of_malformed intSize c (fieldName sf) t e ht hbad
  obtain ⟨kind, hkind⟩ := atoi_error intSize t e hbad
  have hne : e ≠ Error.ErrNotFound := by
    rw [hkind]
    simp
  have hfield : c.loadField intSize sf.IsExported f (fieldName sf) = some (f, some e) := by
    rcases hf with ⟨k, i, rfl⟩ | ⟨k, n, rfl⟩
    · simp [loadField_int, hname, hI]
    · simp [loadField_uint, hname, hI]
  rw [load_recordPtr, loadStruct_append_ok intSize c pre _ hpre,
    loadStruct_cons_hard intSize c sf f f post e hfield hne]

/-- Witness of C8: `Name string; Age int; City string` bound from the store of `Name=piyo`,
`Age=x28`, `City=Oslo`. -/
theorem malformed_int_stops_binding_witness :
    (Config.mk (some (fun x => if x = "Name".toList then some "piyo".toList
        else if x = "Age".toList then some "x28".toList
        else if x = "City".toList then some "Oslo".toList else none)) none).Load 64
      (recordPtr
        ([(⟨"Name".toList, [], false⟩, Value.string [])]
          ++ (⟨"Age".toList, [], false⟩, Value.int IntKind.Int 0)
          :: [(⟨"City".toList, [], false⟩, Value.string [])]))
    = some (recordPtr
        ([(⟨"Name".toList, [], false⟩, Value.string "piyo".toList)]
          ++ (⟨"Age".toList, [], false⟩, Value.int IntKind.Int 0)
          :: [(⟨"City".toList, [], false⟩, Value.string [])]),
        some (Error.NumError "Atoi".toList "x28".toList NumErr.ErrSyntax)) :=
  malformed_int_stops_binding 64
    (Config.mk (some (fun x => if x = "Name".toList then some "piyo".toList
        else if x = "Age".toList then some "x28".toList
        else if x = "City".toList then some "Oslo".toList else none)) none)
    ⟨"Age".toList, [], false⟩ (Value.int IntKind.Int 0)
    [(⟨"Name".toList, [], false⟩, Value.string [])]
    [(⟨"City".toList, [], false⟩, Value.string [])]
    "x28".toList (Error.NumError "Atoi".toList "x28".toList NumErr.ErrSyntax)
    (by decide) (Or.inl ⟨IntKind.Int, 0, rfl⟩) (by decide) (by decide) (by decide)

/-- C9, at the failing inputs: an embedded struct field, and a `bool` field tagged
`config:"-"`, both with the empty logical name, are not skipped. `Load` returns
`ErrUnsupportedType` and the text field `Name` that follows is not bound. -/
theorem unnamed_field_not_skipped :
    fieldName ⟨"Base".toList, [], true⟩ = []
    ∧ nameAgeStore.Load 64 (recordPtr
        [(⟨"Base".toList, [], true⟩,
            Value.struct [(⟨"ID".toList, [], false⟩, Value.int IntKind.Int 0)]),
         (⟨"Name".toList, [], false⟩, Value.string [])])
      = some (recordPtr
        [(⟨"Base".toList, [], true⟩,
            Value.struct [(⟨"ID".toList, [], false⟩, Value.int IntKind.Int 0)]),
         (⟨"Name".toList, [], false⟩, Value.string [])],
        some Error.ErrUnsupportedType)
    ∧ fieldName ⟨"Debug".toList, [("config".toList, "-".toList)], false⟩ = []
    ∧ nameAgeStore.Load 64 (recordPtr
        [(⟨"Debug".toList, [("config".toList, "-".toList)], false⟩, Value.bool false),
         (⟨"Name".toList, [], false⟩, Value.string [])])
      = some (recordPtr
        [(⟨"Debug".toList, [("config".toList, "-".toList)], false⟩, Value.bool false),
         (⟨"Name".toList, [], false⟩, Value.string [])],
        some Error.ErrUnsupportedType) := by
  refine ⟨by decide, ?_, by decide, ?_⟩
  · rw [load_recordPtr]
    rfl
  · rw [load_recordPtr]
    rfl

/-- C10: `Load` returns `ErrUnsupportedType` and leaves its argument as it was when the argument is
not a pointer or interface (the nil interface, a record passed by value), is a nil pointer,
or is a pointer to something that is not a struct. -/
theorem load_rejects_target (intSize : Nat) (c : Config) (st : Iface)
    (h : (st.Kind ≠ Kind.Ptr ∧ st.Kind ≠ Kind.Interface)
      ∨ st = Iface.val (Value.ptr none)
      ∨ (∃ e, st = Iface.val (Value.ptr (some e)) ∧ e.Kind ≠ Kind.Struct)) :
    c.Load intSize st = some (st, some Error.ErrUnsupportedType) := by
  rcases h with h | h | ⟨e, h, he⟩
  · rw [Config.Load]
    simp [h]
  · subst h
    rw [Config.Load]
    simp [Iface.Kind, Value.Kind, Iface.Elem]
  · subst h
    rw [Config.Load]
    simp only [Iface.Kind, Value.Kind, Iface.Elem]
    cases e with
    | struct fields => exact absurd rfl he
    | ptr e1 => simp [load_reflectValue, Iface.setElem, Iface.described]
    | iface e1 => simp [load_reflectValue, Iface.setElem, Iface.described]
    | bool b => simp
    | int k i => simp
    | uint k n => simp
    | string s => simp
    | other k => simp

/-- Witness of C10: the record `person` passed by value, a nil pointer, and pointers to an
`int`, to a string and to a pointer. -/
theorem load_rejects_target_witness :
    nameAgeStore.Load 64 (Iface.val (Value.struct
        [(⟨"Name".toList, [], false⟩, Value.string []),
         (⟨"Age".toList, [], false⟩, Value.int IntKind.Int 0)]))
      = some (Iface.val (Value.struct
        [(⟨"Name".toList, [], false⟩, Value.string []),
         (⟨"Age".toList, [], false⟩, Value.int IntKind.Int 0)]), some Error.ErrUnsupportedType)
    ∧ nameAgeStore.Load 64 (Iface.val (Value.ptr none))
      = some (Iface.val (Value.ptr none), some Error.ErrUnsupportedType)
    ∧ nameAgeStore.Load 64 (Iface.val (Value.ptr (some (Value.int IntKind.Int 7))))
      = some (Iface.val (Value.ptr (some (Value.int IntKind.Int 7))),
          some Error.ErrUnsupportedType)
    ∧ nameAgeStore.Load 64 (Iface.val (Value.ptr (some (Value.string "Age".toList))))
      = some (Iface.val (Value.ptr (some (Value.string "Age".toList))),
          some Error.ErrUnsupportedType)
    ∧ nameAgeStore.Load 64 (Iface.val (Value.ptr (some (Value.ptr none))))
      = some (Iface.val (Value.ptr (some (Value.ptr none))), some Error.ErrUnsupportedType) :=
  ⟨load_rejects_target 64 nameAgeStore _ (Or.inl (by decide)),
    load_rejects_target 64 nameAgeStore _ (Or.inr (Or.inl rfl)),
    load_rejects_target 64 nameAgeStore _ (Or.inr (Or.inr ⟨_, rfl, by decide⟩)),
    load_rejects_target 64 nameAgeStore _ (Or.inr (Or.inr ⟨_, rfl, by decide⟩)),
    load_rejects_target 64 nameAgeStore _ (Or.inr (Or.inr ⟨_, rfl, by decide⟩))⟩

/-! ## The line store: loading as a fold over the lines -/

theorem textLines_append_newline (a b : Str) :
    textLines (a ++ '\n' :: b) = textLines a ++ textLines b := by
  induction a with
  | nil => simp [textLines]
  | cons ch t ih =>
    rw [List.cons_append, textLines, textLines, ih]
    split_ifs
    · rfl
    · cases ht : textLines t with
      | nil => exact absurd ht (textLines_ne_nil t)
      | cons l ls => rfl

theorem applyLine_nil (m : Str → Option Str) : applyLine m [] = m := by
  simp [applyLine, parseLine]

theorem loadReader_start (c : Config) :
    (match c.Values with
      | none => { c with Values := some (fun _ => none) }
      | some _ => c) = c.allocated := by
  obtain ⟨vals, defs⟩ := c
  cases vals <;> rfl

/-- C12: for every store and text, `LoadString` returns with no error, and the store it leaves
is the store with `Values` allocated to which `setLine` was applied, in order, for every
fragment of the text between newlines, the last one included; `Values` then is the map
into which every valid line was parsed in order. Hence `LoadString` of the text followed by
a newline leaves the same store. -/
theorem loadString_every_fragment (c : Config) (s : Str) :
    ∃ c1, c.LoadString s = Outcome.ret (c1, none)
      ∧ c.allocated.setLines (textLines s) = some c1
      ∧ c1.Values = some ((textLines s).foldl applyLine c.Values.alloc)
      ∧ c.LoadString (s ++ ['\n']) = Outcome.ret (c1, none) := by
  refine ⟨_, LoadString_eq c s, ?_, rfl, ?_⟩
  · rw [setLines_alloc c.allocated c.Values.alloc rfl]
    rfl
  · rw [LoadString_eq, textLines_append_newline, List.foldl_append]
    simp [textLines, applyLine_nil]

/-- C19: for every store and all texts `a` and `b`, `LoadString` of `a`, a newline and `b` leaves
the very store that `LoadString` of `a` followed by `LoadString` of `b` leaves, and all
three calls return with no error. -/
theorem loadString_concat (c : Config) (a b : Str) :
    ∃ c1 c2, c.LoadString a = Outcome.ret (c1, none)
      ∧ c1.LoadString b = Outcome.ret (c2, none)
      ∧ c.LoadString (a ++ '\n' :: b) = Outcome.ret (c2, none) := by
  refine ⟨_, _, LoadString_eq c a, LoadString_eq _ b, ?_⟩
  rw [LoadString_eq, textLines_append_newline, List.foldl_append]
  rfl

/-- C13: `SetDefault` leaves `Values` as it was and leaves the result of `String` as it was for
every key of `Values`; and when the trimmed name is not a key of `Values`, `String` of the
trimmed name afterwards returns the trimmed value, whatever default it had before. -/
theorem setDefault_fills_absence (c : Config) (n v : Str) :
    (c.SetDefault n v).Values = c.Values
    ∧ (∀ k x, c.Values.get k = some x → (c.SetDefault n v).String k = c.String k)
    ∧ (c.Values.get (TrimSpace n) = none →
        (c.SetDefault n v).String (TrimSpace n) = (TrimSpace v, none)) := by
  refine ⟨rfl, ?_, ?_⟩
  · intro k x hk
    have h1 : (c.SetDefault n v).Values.get k = some x := hk
    simp [Config.String, hk, h1]
  · intro hk
    have h1 : (c.SetDefault n v).Values.get (TrimSpace n) = none := hk
    have h2 : (c.SetDefault n v).Defaults.get (TrimSpace n) = some (TrimSpace v) := by
      simp [Config.SetDefault, GoMap.get]
    simp only [Config.String, h1, h2]

/-- Witness of C13: the default ` port = 80 ` set on a store whose `Values` holds `host` and
whose `Defaults` holds other texts for `host` and `port`. -/
theorem setDefault_fills_absence_witness :
    ((Config.mk (some (fun x => if x = "host".toList then some "a".toList else none))
        (some (fun x => if x = "host".toList then some "h".toList
          else if x = "port".toList then some "1".toList else none))).SetDefault
        " host ".toList " z ".toList).String "host".toList
      = ("a".toList, none)
    ∧ ((Config.mk (some (fun x => if x = "host".toList then some "a".toList else none))
        (some (fun x => if x = "host".toList then some "h".toList
          else if x = "port".toList then some "1".toList else none))).SetDefault
        " port ".toList " 80 ".toList).String "port".toList
      = ("80".toList, none) :=
  ⟨((setDefault_fills_absence
      (Config.mk (some (fun x => if x = "host".toList then some "a".toList else none))
        (some (fun x => if x = "host".toList then some "h".toList
          else if x = "port".toList then some "1".toList else none)))
      " host ".toList " z ".toList).2.1 "host".toList "a".toList (by decide)).trans (by decide),
    (setDefault_fills_absence
      (Config.mk (some (fun x => if x = "host".toList then some "a".toList else none))
        (some (fun x => if x = "host".toList then some "h".toList
          else if x = "port".toList then some "1".toList else none)))
      " port ".toList " 80 ".toList).2.2 (by decide)⟩

/-! ## The line store: a reader that fails -/

theorem readLoop_yieldsThenFails {σ : Type} (rs : ReadStringFn σ) (lines : List Str)
    (frag : Str) (e : Error) (r1 : σ) (he : e ≠ Error.EOF) (c : Config) (r : σ) (fuel : Nat)
    (h : yieldsThenFails rs r lines frag e r1) (hfuel : lines.length < fuel) :
    Config.readLoop rs fuel c r =
      match c.setLines lines with
      | none => Outcome.panic
      | some c1 => Outcome.ret (c1, r1, some e) := by
  induction lines generalizing c r fuel with
  | nil =>
    obtain ⟨k, rfl⟩ : ∃ k, fuel = k + 1 := ⟨fuel - 1, by simp at hfuel; omega⟩
    simp only [yieldsThenFails] at h
    simp [Config.readLoop, h, he, Config.setLines]
  | cons l ls ih =>
    obtain ⟨k, rfl⟩ : ∃ k, fuel = k + 1 := ⟨fuel - 1, by simp at hfuel; omega⟩
    obtain ⟨r0, hr, hrest⟩ := h
    simp only [Config.readLoop, hr, Config.setLines]
    cases hc : c.setLine l with
    | none => rfl
    | some c0 =>
      simp only []
      exact ih c0 r0 k hrest (by simpa using hfuel)

/-- C17: when a reader yields the lines `l1..lk` with no error and then fails with an error `e`
other than `io.EOF`, `LoadReader`, given fuel for more than `k` reads, returns `e` and leaves
the store with `Values` allocated to which `setLine` was applied for `l1..lk` in order:
`Values` holds the earlier entries and the valid lines among `l1..lk`, `Defaults` is as it
was, and the fragment that came with the failure is not parsed. -/
theorem loadReader_failure_keeps_lines {σ : Type} (rs : ReadStringFn σ) (c : Config)
    (r r1 : σ) (lines : List Str) (frag : Str) (e : Error) (fuel : Nat)
    (h : yieldsThenFails rs r lines frag e r1) (he : e ≠ Error.EOF)
    (hfuel : lines.length < fuel) :
    ∃ c1, c.LoadReader rs fuel r = Outcome.ret (c1, r1, some e)
      ∧ c.allocated.setLines lines = some c1
      ∧ c1.Values = some (lines.foldl applyLine c.Values.alloc)
      ∧ c1.Defaults = c.Defaults := by
  have hs := setLines_alloc c.allocated c.Values.alloc rfl lines
  refine ⟨_, ?_, hs, rfl, rfl⟩
  unfold Config.LoadReader
  simp only []
  rw [loadReader_start, readLoop_yieldsThenFails rs lines frag e r1 he _ r fuel h hfuel, hs]

/-- Witness of C17: a scripted reader that yields `a=1` and `b=2`, then fails with `boom` while
delivering `c=3`; the store held `a=0` and the default `c=9` before. -/
theorem loadReader_failure_keeps_lines_witness :
    ∃ c1,
      (Config.mk (some (fun x => if x = ['a'] then some ['0'] else none))
          (some (fun x => if x = ['c'] then some ['9'] else none))).LoadReader
        scriptReadString 3
        [("a=1\n".toList, none), ("b=2\n".toList, none),
         ("c=3".toList, some (Error.Other "boom".toList))]
        = Outcome.ret (c1, [], some (Error.Other "boom".toList))
      ∧ c1.String ['a'] = (['1'], none) ∧ c1.String ['b'] = (['2'], none)
      ∧ c1.String ['c'] = (['9'], none) := by
  obtain ⟨c1, h1, _, h3, h4⟩ :=
    loadReader_failure_keeps_lines scriptReadString
      (Config.mk (some (fun x => if x = ['a'] then some ['0'] else none))
        (some (fun x => if x = ['c'] then some ['9'] else none)))
      [("a=1\n".toList, none), ("b=2\n".toList, none),
       ("c=3".toList, some (Error.Other "boom".toList))]
      [] ["a=1\n".toList, "b=2\n".toList] "c=3".toList (Error.Other "boom".toList) 3
      ⟨_, rfl, _, rfl, rfl⟩ (by decide) (by decide)
  refine ⟨c1, h1, ?_, ?_, ?_⟩
  · simp only [Config.String, h3, h4, GoMap.get]
    decide
  · simp only [Config.String, h3, h4, GoMap.get]
    decide
  · simp only [Config.String, h3, h4, GoMap.get]
    decide

/-! ## The logical name of a field -/

theorem split_head (tag : Str) (ch : Char) :
    1 ≤ (Split tag [ch]).length
    ∧ (Split tag [ch]).getD 0 [] = tag.takeWhile (fun x => x != ch) := by
  have hS : Split tag [ch] = genSplit [ch] tag.length tag := by
    simp [Split, SplitN]
  rw [hS]
  cases tag with
  | nil => simp [genSplit]
  | cons x t =>
    simp only [List.length_cons, genSplit]
    by_cases hm : ch ∈ x :: t
    · obtain ⟨a, b, hab, ha⟩ := List.eq_append_cons_of_mem hm
      have hI : Index (x :: t) [ch] = (a.length : ℤ) := by
        rw [hab, Index, indexFrom_singleton_append _ _ _ _ ha]
        simp
      have hpos : ∀ y ∈ a, (fun z => z != ch) y = true := by
        intro y hy
        have : y ≠ ch := fun e => ha (e ▸ hy)
        simpa using this
      rw [hI, if_neg (by omega)]
      refine ⟨by simp, ?_⟩
      rw [hab, List.takeWhile_append_of_pos hpos]
      simp [List.takeWhile_cons]
    · have hI : Index (x :: t) [ch] = -1 := by
        rw [Index, indexFrom_singleton_not_mem _ _ _ hm]
      have hall : ∀ y ∈ x :: t, (fun z => z != ch) y = true := by
        intro y hy
        have : y ≠ ch := fun e => hm (e ▸ hy)
        simpa using this
      rw [hI, if_pos (by decide)]
      refine ⟨by simp, ?_⟩
      rw [List.takeWhile_eq_self_iff.mpr hall]
      rfl

theorem fieldName_eq (f : StructField) :
    fieldName f =
      if f.Anonymous = true then []
      else if f.tagGet "config".toList = [] then f.Name
      else if f.tagGet "config".toList = ['-'] then []
      else TrimSpace ((f.tagGet "config".toList).takeWhile (fun ch => ch != ',')) := by
  have hsplit := split_head (f.tagGet "config".toList) ','
  unfold fieldName
  generalize f.tagGet "config".toList = tag at hsplit ⊢
  by_cases ha : f.Anonymous = true
  · rw [if_pos ha, if_pos ha]
  · rw [if_neg ha, if_neg ha]
    by_cases hne : tag = []
    · simp only [hne, ne_eq, not_true_eq_false, if_false, if_true]
    · by_cases hdash : tag = ['-']
      · simp only [hdash, ne_eq, if_true]
        simp
      · simp only [ne_eq, hne, not_false_eq_true, if_true, hdash, if_false, hsplit.1,
          hsplit.2]

/-- C18: `fieldName` is empty for an anonymous field; for any other field it is empty when the
`config` tag is exactly `-`, the trimmed text before the first comma when the `config` tag is
any other non-empty text, and the declared name when there is no `config` tag. So with a
`config` tag the logical name of a field that is not anonymous does not depend on its
declared name. -/
theorem fieldName_rules (f : StructField) :
    (f.Anonymous = true → fieldName f = [])
    ∧ (f.Anonymous = false → f.tagGet "config".toList = ['-'] → fieldName f = [])
    ∧ (f.Anonymous = false → f.tagGet "config".toList ≠ [] → f.tagGet "config".toList ≠ ['-'] →
        fieldName f
          = TrimSpace ((f.tagGet "config".toList).takeWhile (fun ch => ch != ',')))
    ∧ (f.Anonymous = false → f.tagGet "config".toList = [] → fieldName f = f.Name)
    ∧ (f.Anonymous = false → f.tagGet "config".toList ≠ [] →
        ∀ declared : Str, fieldName { f with Name := declared } = fieldName f) := by
  refine ⟨?_, ?_, ?_, ?_, ?_⟩
  · intro ha
    rw [fieldName_eq, if_pos ha]
  · intro ha ht
    rw [fieldName_eq, if_neg (by rw [ha]; decide), ht, if_neg (by decide), if_pos rfl]
  · intro ha hne hdash
    rw [fieldName_eq, if_neg (by rw [ha]; decide), if_neg hne, if_neg hdash]
  · intro ha ht
    rw [fieldName_eq, if_neg (by rw [ha]; decide), if_pos ht]
  · intro ha hne declared
    have ht : StructField.tagGet { f with Name := declared } "config".toList
        = f.tagGet "config".toList := rfl
    have han : ({ f with Name := declared } : StructField).Anonymous = f.Anonymous := rfl
    rw [fieldName_eq, fieldName_eq f, ht, han]
    simp only [ha, hne, Bool.false_eq_true, if_false]

/-- Witness of C18: an embedded field, a field tagged `-`, a field tagged ` port , x`, an untagged
field `Age`, and the tagged field under another declared name. -/
theorem fieldName_rules_witness :
    fieldName ⟨"Base".toList, [("config".toList, "b".toList)], true⟩ = []
    ∧ fieldName ⟨"Debug".toList, [("config".toList, "-".toList)], false⟩ = []
    ∧ fieldName ⟨"Port".toList, [("config".toList, " port , x".toList)], false⟩ = "port".toList
    ∧ fieldName ⟨"Age".toList, [("json".toList, "age".toList)], false⟩ = "Age".toList
    ∧ fieldName { (⟨"Port".toList, [("config".toList, " port , x".toList)], false⟩ :
          StructField) with Name := "Other".toList }
        = fieldName ⟨"Port".toList, [("config".toList, " port , x".toList)], false⟩ :=
  ⟨(fieldName_rules ⟨"Base".toList, [("config".toList, "b".toList)], true⟩).1 rfl,
    (fieldName_rules ⟨"Debug".toList, [("config".toList, "-".toList)], false⟩).2.1 rfl
      (by decide),
    (fieldName_rules ⟨"Port".toList, [("config".toList, " port , x".toList)], false⟩).2.2.1 rfl
      (by decide) (by decide),
    (fieldName_rules ⟨"Age".toList, [("json".toList, "age".toList)], false⟩).2.2.2.1 rfl
      (by decide),
    (fieldName_rules ⟨"Port".toList, [("config".toList, " port , x".toList)], false⟩).2.2.2.2 rfl
      (by decide) "Other".toList⟩

/-! ## Booleans -/

/-- Counterexample to C14 as stated: the stored text `tRUE` is `true` in a mix of cases, yet `Bool`
returns false with a `strconv` syntax error. -/
theorem bool_mixed_case_counterexample :
    lowerCase "tRUE".toList = "true".toList
    ∧ (Config.mk (some (fun x => if x = "flag".toList then some "tRUE".toList else none))
        none).Bool "flag".toList
      = (false, some (Error.NumError "ParseBool".toList "tRUE".toList NumErr.ErrSyntax)) := by
  decide

/-- C14, amended: `Bool` returns true with no error when the stored text is exactly one of
`1`, `t`, `T`, `TRUE`, `true`, `True`, and false with no error when it is exactly one of
`0`, `f`, `F`, `FALSE`, `false`, `False`; a name in neither map fails with `ErrNotFound`, and any
other stored text fails with a `strconv` syntax error, which is not `ErrNotFound`; both
failures return false. -/
theorem bool_results (c : Config) (name : Str) :
    (∀ t, c.String name = (t, none) → t ∈ trueLiterals → c.Bool name = (true, none))
    ∧ (∀ t, c.String name = (t, none) → t ∈ falseLiterals → c.Bool name = (false, none))
    ∧ (c.Values.get name = none → c.Defaults.get name = none →
        c.Bool name = (false, some Error.ErrNotFound))
    ∧ (∀ t, c.String name = (t, none) → t ∉ trueLiterals → t ∉ falseLiterals →
        c.Bool name = (false, some (Error.NumError "ParseBool".toList t NumErr.ErrSyntax))
        ∧ Error.NumError "ParseBool".toList t NumErr.ErrSyntax ≠ Error.ErrNotFound) := by
  refine ⟨?_, ?_, ?_, ?_⟩
  · intro t ht hmem
    have hp : ParseBool t = (true, none) := by
      simp only [trueLiterals, List.mem_cons, List.mem_singleton, List.not_mem_nil,
        or_false] at hmem
      rcases hmem with h | h | h | h | h | h <;> subst h <;> decide
    simp [Config.Bool, ht, hp]
  · intro t ht hmem
    have hp : ParseBool t = (false, none) := by
      simp only [falseLiterals, List.mem_cons, List.mem_singleton, List.not_mem_nil,
        or_false] at hmem
      rcases hmem with h | h | h | h | h | h <;> subst h <;> decide
    simp [Config.Bool, ht, hp]
  · intro hv hd
    simp [Config.Bool, Config.String, hv, hd]
  · intro t ht h1 h2
    refine ⟨?_, by simp⟩
    have hp : ParseBool t
        = (false, some (Error.NumError "ParseBool".toList t NumErr.ErrSyntax)) := by
      simp only [trueLiterals, falseLiterals, List.mem_cons, List.mem_singleton,
        List.not_mem_nil, or_false] at h1 h2
      unfold ParseBool
      rw [if_neg (by tauto), if_neg (by tauto)]
    simp [Config.Bool, ht, hp]

/-- Witness of the amended C14: a store that holds `True`, `F` and `yes`, read at each and at an
absent name. -/
theorem bool_results_witness :
    (Config.mk (some (fun x => if x = ['a'] then some "True".toList
        else if x = ['b'] then some "F".toList
        else if x = ['c'] then some "yes".toList else none)) none).Bool ['a'] = (true, none)
    ∧ (Config.mk (some (fun x => if x = ['a'] then some "True".toList
        else if x = ['b'] then some "F".toList
        else if x = ['c'] then some "yes".toList else none)) none).Bool ['b'] = (false, none)
    ∧ (Config.mk (some (fun x => if x = ['a'] then some "True".toList
        else if x = ['b'] then some "F".toList
        else if x = ['c'] then some "yes".toList else none)) none).Bool ['z']
      = (false, some Error.ErrNotFound)
    ∧ (Config.mk (some (fun x => if x = ['a'] then some "True".toList
        else if x = ['b'] then some "F".toList
        else if x = ['c'] then some "yes".toList else none)) none).Bool ['c']
      = (false, some (Error.NumError "ParseBool".toList "yes".toList NumErr.ErrSyntax)) :=
  ⟨(bool_results _ ['a']).1 "True".toList (by decide) (by decide),
    (bool_results _ ['b']).2.1 "F".toList (by decide) (by decide),
    (bool_results _ ['z']).2.2.1 (by decide) (by decide),
    ((bool_results _ ['c']).2.2.2 "yes".toList (by decide) (by decide) (by decide)).1⟩

/-! ## Conversions between integer widths -/

theorem two_pow_split (w : Nat) (hw : 0 < w) : (2 : ℤ) ^ w = 2 * 2 ^ (w - 1) := by
  obtain ⟨v, rfl⟩ : ∃ v, w = v + 1 := ⟨w - 1, by omega⟩
  simp [pow_succ, mul_comm]

theorem wrapSigned_eq_toSigned (w : Nat) (x : ℤ) (hw : 0 < w) :
    wrapSigned w x = toSigned w x := by
  have hM := two_pow_split w hw
  have hH : (0 : ℤ) < 2 ^ (w - 1) := by positivity
  have hr0 : 0 ≤ x % 2 ^ w := Int.emod_nonneg _ (by positivity)
  have hr1 : x % 2 ^ w < 2 ^ w := Int.emod_lt_of_pos _ (by positivity)
  have hadd : (x + 2 ^ (w - 1)) % 2 ^ w = (x % 2 ^ w + 2 ^ (w - 1)) % 2 ^ w :=
    (Int.emod_add_emod x (2 ^ w) (2 ^ (w - 1))).symm
  unfold wrapSigned toSigned
  rw [hadd]
  split_ifs with hlt
  · rw [Int.emod_eq_of_lt (by omega) (by omega)]
    omega
  · have hsplit : x % 2 ^ w + 2 ^ (w - 1) = (x % 2 ^ w + 2 ^ (w - 1) - 2 ^ w) + 2 ^ w := by
      ring
    have : (x % 2 ^ w + 2 ^ (w - 1)) % 2 ^ w = x % 2 ^ w + 2 ^ (w - 1) - 2 ^ w := by
      conv_lhs => rw [hsplit]
      rw [Int.add_emod_self, Int.emod_eq_of_lt (by omega) (by omega)]
    rw [this]
    omega

theorem toSigned_congr (w : Nat) (x y : ℤ) (h : x % 2 ^ w = y % 2 ^ w) :
    toSigned w x = toSigned w y := by
  simp [toSigned, h]

theorem wrapSigned_emod (w v : Nat) (x : ℤ) (hv : 0 < v) (hwv : w ≤ v) :
    wrapSigned v x % 2 ^ w = x % 2 ^ w := by
  have hdvd : (2 : ℤ) ^ w ∣ 2 ^ v := pow_dvd_pow 2 hwv
  have hH : (2 : ℤ) ^ w ∣ 2 * 2 ^ (v - 1) := by
    rw [← two_pow_split v hv]
    exact hdvd
  unfold wrapSigned
  have h1 : ((x + 2 ^ (v - 1)) % 2 ^ v - 2 ^ (v - 1)) % 2 ^ w
      = ((x + 2 ^ (v - 1)) - 2 ^ (v - 1)) % 2 ^ w := by
    rw [Int.sub_emod, Int.emod_emod_of_dvd _ hdvd, ← Int.sub_emod]
  rw [h1]
  simp

/-- Conversion of an integer to 64 bits and then to `w ≤ 64` bits is its
reduction to `w`-bit two's complement. -/
theorem wrapSigned_via_64 (w : Nat) (n : ℤ) (hw : 0 < w) (hw64 : w ≤ 64) :
    wrapSigned w (wrapSigned 64 n) = toSigned w n := by
  rw [wrapSigned_eq_toSigned w _ hw]
  exact toSigned_congr w _ _ (wrapSigned_emod w 64 n (by norm_num) hw64)

theorem toSigned_eq_self_iff (w : Nat) (n : ℤ) (hw : 0 < w) :
    toSigned w n = n ↔ -(2 ^ (w - 1) : ℤ) ≤ n ∧ n < 2 ^ (w - 1) := by
  have hM := two_pow_split w hw
  have hr0 : 0 ≤ n % 2 ^ w := Int.emod_nonneg _ (by positivity)
  have hr1 : n % 2 ^ w < 2 ^ w := Int.emod_lt_of_pos _ (by positivity)
  constructor
  · intro h
    unfold toSigned at h
    split_ifs at h with hlt
    · omega
    · omega
  · rintro ⟨hlo, hhi⟩
    rw [← wrapSigned_eq_toSigned w n hw]
    exact wrapSigned_of_range w n hw hlo hhi

/-- Conversion of an integer to `uint64` and then to an unsigned type of
`w ≤ 64` bits is its residue modulo `2 ^ w`. -/
theorem wrapUnsigned_via_64 (w : Nat) (i : ℤ) (hw64 : w ≤ 64) :
    wrapUnsigned w (wrapUnsigned 64 i) = (i % 2 ^ w).toNat := by
  have hdvd : (2 : ℤ) ^ w ∣ 2 ^ 64 := pow_dvd_pow 2 hw64
  have h0 : 0 ≤ i % 2 ^ 64 := Int.emod_nonneg _ (by positivity)
  unfold wrapUnsigned
  rw [Int.toNat_of_nonneg h0, Int.emod_emod_of_dvd _ hdvd]

/-! ## The binder: references, widths and key spelling -/

/-- A pointer to a pointer or to an interface value is rejected: the nested
call of `Load` receives a `reflect.Value`, whose kind is `Struct`. -/
theorem load_pointer_to_reference (intSize : Nat) (c : Config) (e : Value)
    (h : (∃ t, e = Value.ptr t) ∨ (∃ t, e = Value.iface t)) :
    c.Load intSize (Iface.val (Value.ptr (some e)))
      = some (Iface.val (Value.ptr (some e)), some Error.ErrUnsupportedType) := by
  rw [Config.Load]
  simp only [Iface.Kind, Value.Kind, Iface.Elem]
  rcases h with ⟨t, rfl⟩ | ⟨t, rfl⟩
  · simp [load_reflectValue, Iface.setElem, Iface.described]
  · simp [load_reflectValue, Iface.setElem, Iface.described]

/-- C11, at the failing input: with `Name=piyo` and `Age=28` in the store, `Load` on a pointer to
the zero record `person` returns no error and binds both fields, while `Load` on a pointer to
that pointer returns `ErrUnsupportedType` and leaves the record zero. -/
theorem load_pointer_to_pointer_rejected :
    nameAgeStore.Load 64 (recordPtr personZero)
      = some (recordPtr
          [(⟨"Name".toList, [], false⟩, Value.string "piyo".toList),
           (⟨"Age".toList, [], false⟩, Value.int IntKind.Int 28)], none)
    ∧ nameAgeStore.Load 64
        (Iface.val (Value.ptr (some (Value.ptr (some (Value.struct personZero))))))
      = some (Iface.val (Value.ptr (some (Value.ptr (some (Value.struct personZero))))),
          some Error.ErrUnsupportedType) := by
  refine ⟨?_, load_pointer_to_reference 64 nameAgeStore _ (Or.inl ⟨_, rfl⟩)⟩
  rw [load_recordPtr]
  rfl

theorem loadStruct_reaches_field (intSize : Nat) (c : Config) (sf : StructField)
    (f f1 : Value) (pre post post1 : List (StructField × Value)) (err : Option Error)
    (hpre : ∀ x ∈ pre, c.fieldSucceeds intSize x = true)
    (hfield : c.loadField intSize sf.IsExported f (fieldName sf) = some (f1, none))
    (hpost : c.loadStruct intSize true post = some (post1, err)) :
    c.Load intSize (recordPtr (pre ++ (sf, f) :: post))
      = some (recordPtr (pre.map (c.boundField intSize) ++ (sf, f1) :: post1), err) := by
  have hcons : c.loadStruct intSize true ((sf, f) :: post) = some ((sf, f1) :: post1, err) := by
    simp [Config.loadStruct, hfield, hpost]
  rw [load_recordPtr, loadStruct_append_ok intSize c pre _ hpre, hcons]

theorem uintKind_bits_le (intSize : Nat) (k : UintKind) (h : intSize ≤ 64) :
    k.bits intSize ≤ 64 := by
  cases k <;> simp [UintKind.bits, h]

/-- Counterexample to C15 as stated, in two records. The stored text `-1` parses to a
negative integer that a `uint8` field cannot hold, yet `Load` returns no error and the
field `N` ends as 255. And the stored text `5` fits a `uint8` field, yet `Load` panics in
`SetUint` when the field, `n`, is not exported. -/
theorem uint_field_negative_counterexample :
    ((Config.mk (some (fun x => if x = ['N'] then some "-1".toList else none)) none).Int 64 ['N']
      = (-1, none)
    ∧ (Config.mk (some (fun x => if x = ['N'] then some "-1".toList else none)) none).Load 64
        (recordPtr [(⟨['N'], [], false⟩, Value.uint UintKind.Uint8 0)])
      = some (recordPtr [(⟨['N'], [], false⟩, Value.uint UintKind.Uint8 255)], none))
    ∧ ((Config.mk (some (fun x => if x = ['n'] then some "5".toList else none)) none).Int 64 ['n']
      = (5, none)
    ∧ (Config.mk (some (fun x => if x = ['n'] then some "5".toList else none)) none).Load 64
        (recordPtr [(⟨['n'], [], false⟩, Value.uint UintKind.Uint8 0)])
      = none) := by
  refine ⟨⟨by decide, ?_⟩, ⟨by decide, ?_⟩⟩
  · rw [load_recordPtr]
    rfl
  · rw [load_recordPtr]
    rfl

/-- C15, amended: for an exported unsigned-integer field of `w` bits whose logical name is not
empty and whose value `Int` fetches as the signed integer `i`, binding the field returns no
error whatever the sign of `i`, and the field ends as the residue of `i` modulo `2 ^ w`; so
when binding reaches the field, `Load` assigns that residue and goes on with the later
fields. A result with `0 ≤ i < 2 ^ w` is assigned unchanged. Proved for an `int` of at most
64 bits. -/
theorem uint_field_binding (intSize : Nat) (c : Config) (sf : StructField) (k : UintKind)
    (n0 : Nat) (pre post : List (StructField × Value)) (i : ℤ)
    (hsize : intSize ≤ 64)
    (hexp : sf.IsExported = true)
    (hname : fieldName sf ≠ [])
    (hint : c.Int intSize (fieldName sf) = (i, none))
    (hpre : ∀ x ∈ pre, c.fieldSucceeds intSize x = true) :
    c.loadField intSize sf.IsExported (Value.uint k n0) (fieldName sf)
      = some (Value.uint k (i % 2 ^ k.bits intSize).toNat, none)
    ∧ (∀ post1 err, c.loadStruct intSize true post = some (post1, err) →
        c.Load intSize (recordPtr (pre ++ (sf, Value.uint k n0) :: post))
          = some (recordPtr (pre.map (c.boundField intSize)
              ++ (sf, Value.uint k (i % 2 ^ k.bits intSize).toNat) :: post1), err))
    ∧ (0 ≤ i → i < 2 ^ k.bits intSize → ((i % 2 ^ k.bits intSize).toNat : ℤ) = i) := by
  have hfield : c.loadField intSize sf.IsExported (Value.uint k n0) (fieldName sf)
      = some (Value.uint k (i % 2 ^ k.bits intSize).toNat, none) := by
    rw [loadField_uint, if_neg hname, hint, hexp]
    simp only [Bool.true_eq_false, if_false]
    rw [wrapUnsigned_via_64 _ i (uintKind_bits_le intSize k hsize)]
  refine ⟨hfield, ?_, ?_⟩
  · intro post1 err hpost
    exact loadStruct_reaches_field intSize c sf _ _ pre post post1 err hpre hfield hpost
  · intro h0 h1
    rw [Int.emod_eq_of_lt h0 h1, Int.toNat_of_nonneg h0]

/-- Witness of the amended C15: the texts `200` and `-1` bound onto two `uint8` fields. -/
theorem uint_field_binding_witness :
    (Config.mk (some (fun x => if x = ['M'] then some "200".toList
        else if x = ['N'] then some "-1".toList else none)) none).Load 64
      (recordPtr ([(⟨['M'], [], false⟩, Value.uint UintKind.Uint8 0)]
        ++ (⟨['N'], [], false⟩, Value.uint UintKind.Uint8 0) :: []))
    = some (recordPtr ([(⟨['M'], [], false⟩, Value.uint UintKind.Uint8 200)]
        ++ (⟨['N'], [], false⟩, Value.uint UintKind.Uint8 255) :: []), none) := by
  have hload :=
    (uint_field_binding 64
      (Config.mk (some (fun x => if x = ['M'] then some "200".toList
        else if x = ['N'] then some "-1".toList else none)) none)
      ⟨['N'], [], false⟩ UintKind.Uint8 0
      [(⟨['M'], [], false⟩, Value.uint UintKind.Uint8 0)] [] (-1)
      (by decide) (by decide) (by decide) (by decide) (by decide)).2.1 [] none rfl
  rw [hload]
  rfl

theorem intKind_bits_of_width (intSize : Nat) (k : IntKind)
    (hw : k.bits intSize = 8 ∨ k.bits intSize = 16 ∨ k.bits intSize = 32
      ∨ k.bits intSize = 64) :
    0 < k.bits intSize ∧ k.bits intSize ≤ 64 := by
  rcases hw with h | h | h | h <;> rw [h] <;> decide

/-- Counterexample to C20 as stated: the stored text `300` parses to 300, and `Load` on a
pointer to a record whose `int8` field `b` is not exported panics in `SetInt`; the field
does not end as 44. -/
theorem int_field_unexported_counterexample :
    (Config.mk (some (fun x => if x = ['b'] then some "300".toList else none)) none).Int 64 ['b']
      = (300, none)
    ∧ (Config.mk (some (fun x => if x = ['b'] then some "300".toList else none)) none).Load 64
        (recordPtr [(⟨['b'], [], false⟩, Value.int IntKind.Int8 0)])
      = none := by
  refine ⟨by decide, ?_⟩
  rw [load_recordPtr]
  rfl

/-- C20, amended: for an exported signed-integer field of width `w` in {8, 16, 32, 64} whose
logical name is not empty and whose stored text `Int` parses to `n`, binding the field
returns no error, hence no range error, and the field ends as `n` reduced to `w`-bit two's
complement; so when binding reaches the field, `Load` assigns that value and goes on with the
later fields. The value is `n` itself exactly when `-2 ^ (w - 1) ≤ n < 2 ^ (w - 1)`. -/
theorem int_field_twos_complement (intSize : Nat) (c : Config) (sf : StructField)
    (k : IntKind) (i0 : ℤ) (pre post : List (StructField × Value)) (n : ℤ)
    (hw : k.bits intSize = 8 ∨ k.bits intSize = 16 ∨ k.bits intSize = 32
      ∨ k.bits intSize = 64)
    (hexp : sf.IsExported = true)
    (hname : fieldName sf ≠ [])
    (hint : c.Int intSize (fieldName sf) = (n, none))
    (hpre : ∀ x ∈ pre, c.fieldSucceeds intSize x = true) :
    c.loadField intSize sf.IsExported (Value.int k i0) (fieldName sf)
      = some (Value.int k (toSigned (k.bits intSize) n), none)
    ∧ (∀ post1 err, c.loadStruct intSize true post = some (post1, err) →
        c.Load intSize (recordPtr (pre ++ (sf, Value.int k i0) :: post))
          = some (recordPtr (pre.map (c.boundField intSize)
              ++ (sf, Value.int k (toSigned (k.bits intSize) n)) :: post1), err))
    ∧ (toSigned (k.bits intSize) n = n
        ↔ -(2 ^ (k.bits intSize - 1) : ℤ) ≤ n ∧ n < 2 ^ (k.bits intSize - 1)) := by
  obtain ⟨hpos, hle⟩ := intKind_bits_of_width intSize k hw
  have hfield : c.loadField intSize sf.IsExported (Value.int k i0) (fieldName sf)
      = some (Value.int k (toSigned (k.bits intSize) n), none) := by
    rw [loadField_int, if_neg hname, hint, hexp]
    simp only [Bool.true_eq_false, if_false]
    rw [wrapSigned_via_64 _ n hpos hle]
  refine ⟨hfield, ?_, toSigned_eq_self_iff _ n hpos⟩
  intro post1 err hpost
  exact loadStruct_reaches_field intSize c sf _ _ pre post post1 err hpre hfield hpost

/-- Witness of the amended C20: the text `300` bound onto an exported `int8` field gives 44,
and `Load` returns no error. -/
theorem int_field_twos_complement_witness :
    (Config.mk (some (fun x => if x = ['B'] then some "300".toList else none)) none).Load 64
      (recordPtr ([] ++ (⟨['B'], [], false⟩, Value.int IntKind.Int8 0) :: []))
    = some (recordPtr ([] ++ (⟨['B'], [], false⟩, Value.int IntKind.Int8 44) :: []), none) := by
  have hload :=
    (int_field_twos_complement 64
      (Config.mk (some (fun x => if x = ['B'] then some "300".toList else none)) none)
      ⟨['B'], [], false⟩ IntKind.Int8 0 [] [] 300
      (Or.inl rfl) (by decide) (by decide) (by decide) (by decide)).2.1 [] none rfl
  rw [hload]
  rfl

/-- Counterexample to C16 as stated: after the text `name=piyo`, `age=28` is loaded into the zero
store, `Load` on a pointer to the zero record `person` returns no error and leaves the record
zero: the keys `name` and `age` are not the logical names `Name` and `Age`. -/
theorem lowercase_keys_counterexample :
    ∃ c1, (Config.mk none none).LoadString "name=piyo\nage=28".toList = Outcome.ret (c1, none)
      ∧ c1.String "name".toList = ("piyo".toList, none)
      ∧ c1.String "Name".toList = ([], some Error.ErrNotFound)
      ∧ c1.Load 64 (recordPtr personZero) = some (recordPtr personZero, none) := by
  refine ⟨_, LoadString_eq _ _, by decide, by decide, ?_⟩
  rw [load_recordPtr]
  rfl

/-- C16, amended: after the text `Name=piyo`, `Age=28`, whose keys are spelled as the fields are,
is loaded into the zero store, `Load` on a pointer to the zero record `person` returns no
error and leaves `Name` equal to `piyo` and `Age` equal to 28, for an `int` of 32 and of 64
bits. -/
theorem capitalised_keys_round_trip :
    ∃ c1, (Config.mk none none).LoadString "Name=piyo\nAge=28".toList = Outcome.ret (c1, none)
      ∧ c1.Load 64 (recordPtr personZero)
        = some (recordPtr
            [(⟨"Name".toList, [], false⟩, Value.string "piyo".toList),
             (⟨"Age".toList, [], false⟩, Value.int IntKind.Int 28)], none)
      ∧ c1.Load 32 (recordPtr personZero)
        = some (recordPtr
            [(⟨"Name".toList, [], false⟩, Value.string "piyo".toList),
             (⟨"Age".toList, [], false⟩, Value.int IntKind.Int 28)], none) := by
  refine ⟨_, LoadString_eq _ _, ?_, ?_⟩
  · rw [load_recordPtr]
    rfl
  · rw [load_recordPtr]
    rfl

end GoConfig
